import Mathlib

/-!
Shallow embedding of the broker stream transport
(`src/include/broker/alm/stream_transport.hh`) and the store-event emitter
(`src/src/detail/store_actor.cc`), together with theorems checking the
specification's claims against it.

Actor handles and addresses are modelled as natural numbers (a handle's
address is the handle itself), stream slots as naturals with `0` playing the
role of `caf::invalid_stream_slot`, and the `unordered_map` members as
association lists with `emplace`/`erase`/`lookup` mirroring the C++ calls.
Side effects that leave the transport (callbacks, sends, warnings, pushes
into the peer manager) are recorded in an explicit event list.
-/

namespace Broker

/-- Stream slot (`caf::stream_slot`); `0` is the invalid slot. -/
abbrev Slot := Nat

/-- Actor handle (`caf::actor`). -/
abbrev Hdl := Nat

/-- Actor address (`caf::actor_addr`); the address of handle `h` is `h`. -/
abbrev Addr := Nat

/-- Topics are their rendered slash-separated strings (`topic::string()`). -/
abbrev Topic := String

/-- Broker data values, enough structure for the store-event payloads. -/
inductive Data where
  | nil
  | str (s : String)
  | cnt (n : Nat)
  | span (n : Int)
  | vec (xs : List Data)

/-- Opaque internal command (`broker::internal_command`). -/
abbrev InternalCommand := Nat

/-- A data message `(topic, data)`. -/
abbrev DataMessage := Topic × Data

/-- A command message `(topic, internal_command)`. -/
abbrev CommandMessage := Topic × InternalCommand

/-- Content of a node message: either a data message or a command message. -/
inductive NodeMessageContent where
  | dataMsg (dm : DataMessage)
  | commandMsg (cm : CommandMessage)

/-- A node message `(content, ttl)`; `ttl` is a 16-bit counter kept as a
natural number that the forwarding step reduces modulo `2 ^ 16`. -/
structure NodeMessage where
  content : NodeMessageContent
  ttl : Nat

/-- A filter is a set of topic prefixes (`broker::filter_type`). -/
abbrev Filter := List Topic

/-- Topic segments of a slash-separated topic string. -/
def segsOf (t : Topic) : List String := t.splitOn "/"

/-- Modelled from the spec: segment-aligned topic matching of
`detail::prefix_matcher` (its header is not part of the excerpt): a filter
entry `p` matches `t` iff the segments of `p` are a prefix of the segments
of `t`. -/
def topicStartsWith (p t : Topic) : Bool :=
  (segsOf t).take (segsOf p).length == segsOf p

/-- A filter matches a topic iff some entry of the filter matches it. -/
def filterMatches (f : Filter) (t : Topic) : Bool :=
  f.any (fun p => topicStartsWith p t)

/-- Topic of a node-message content (`get_topic`). -/
def topicOf : NodeMessageContent → Topic
  | .dataMsg dm => dm.1
  | .commandMsg cm => cm.1

/-- The `ends_with` lambda from `handle_batch`: reverse-equality of the
last `ending.size()` characters, `false` when `ending` is longer than `s`. -/
def srcEndsWith (s ending : String) : Bool :=
  if ending.length > s.length then false
  else s.data.reverse.take ending.length == ending.data.reverse

/-- Modelled from the spec: the well-known clone topic suffix
(`topics::clone_suffix`, declared outside the excerpt). Its exact spelling
is irrelevant to the claims. -/
def cloneSuffix : String := "/clone"

/-- Modelled from the spec: the well-known store-events topic
(`topics::store_events`, declared outside the excerpt). -/
def storeEventsTopic : Topic := "store/events"

/-- Modelled from the spec: the peer selector of `peer_filter_matcher`
(its header is not part of the excerpt). A per-path state `(addr, fil)`
accepts a node message iff `addr` differs from the currently configured
`active_sender` and the filter matches the topic. `none` models the null
(default-constructed) sender address. -/
def peerAccepts (activeSender : Option Addr) (pathAddr : Addr) (fil : Filter)
    (m : NodeMessage) : Bool :=
  (some pathAddr != activeSender) && filterMatches fil (topicOf m.content)

/-- One outbound path of the peer manager: its `peer_filter`
`(sender-address, filter)`, the per-path cache, the already emitted
elements and the remaining credit. -/
structure PeerPath where
  addr : Addr
  fil : Filter
  cache : List NodeMessage
  emitted : List NodeMessage
  credit : Nat

/-- The peer manager (`broadcast_downstream_manager` over node messages with
`peer_filter_matcher` as selector): selector state, central buffer and
per-slot paths. -/
structure PeerMgr where
  activeSender : Option Addr
  buf : List NodeMessage
  paths : List (Slot × PeerPath)

/-- Modelled from the spec: `fan_out_flush()` of the broadcast manager moves
the central buffer into the per-path caches using the currently configured
selector state. -/
def PeerMgr.fanOutFlush (m : PeerMgr) : PeerMgr :=
  { m with
    buf := [],
    paths := m.paths.map fun sp =>
      (sp.1, { sp.2 with
               cache := sp.2.cache
                 ++ m.buf.filter (peerAccepts m.activeSender sp.2.addr sp.2.fil) }) }

/-- Modelled from the spec: the credit-bounded emission step of
`emit_batches()`: each path emits up to `credit` elements from the front of
its cache. -/
def PeerPath.creditEmit (pp : PeerPath) : PeerPath :=
  { pp with
    emitted := pp.emitted ++ pp.cache.take pp.credit,
    cache := pp.cache.drop pp.credit,
    credit := pp.credit - min pp.credit pp.cache.length }

/-- Modelled from the spec: `emit_batches()` forms per-path batches using
the selector and credit: a fan-out flush followed by credit-bounded
emission. -/
def PeerMgr.emitBatches (m : PeerMgr) : PeerMgr :=
  let m2 := m.fanOutFlush
  { m2 with paths := m2.paths.map fun sp => (sp.1, sp.2.creditEmit) }

/-- Elements a path has received from the manager, in order: already emitted
elements followed by the still-cached ones. Credit-bounded emission moves
elements from the cache to the emitted part but never changes this list. -/
def PeerPath.delivered (pp : PeerPath) : List NodeMessage :=
  pp.emitted ++ pp.cache

/-- One outbound path of a local (worker or store) manager with a plain
topic filter. -/
structure LocalPath (α : Type) where
  fil : Filter
  cache : List (Topic × α)
  emitted : List (Topic × α)
  credit : Nat

/-- A local broadcast manager (workers: `α = Data`, stores:
`α = InternalCommand`) with central buffer and per-slot paths. -/
structure LocalMgr (α : Type) where
  buf : List (Topic × α)
  paths : List (Slot × LocalPath α)

/-- `push(element)` of a local manager appends to the central buffer. -/
def LocalMgr.push (e : Topic × α) (m : LocalMgr α) : LocalMgr α :=
  { m with buf := m.buf ++ [e] }

/-- Modelled from the spec: fan-out flush of a local manager under the plain
prefix selector. -/
def LocalMgr.fanOutFlush (m : LocalMgr α) : LocalMgr α :=
  { m with
    buf := [],
    paths := m.paths.map fun sp =>
      (sp.1, { sp.2 with
               cache := sp.2.cache ++ m.buf.filter (fun e => filterMatches sp.2.fil e.1) }) }

/-- Modelled from the spec: credit-bounded emission of a local path. -/
def LocalPath.creditEmit (pp : LocalPath α) : LocalPath α :=
  { pp with
    emitted := pp.emitted ++ pp.cache.take pp.credit,
    cache := pp.cache.drop pp.credit,
    credit := pp.credit - min pp.credit pp.cache.length }

/-- Modelled from the spec: `emit_batches()` of a local manager. -/
def LocalMgr.emitBatches (m : LocalMgr α) : LocalMgr α :=
  let m2 := m.fanOutFlush
  { m2 with paths := m2.paths.map fun sp => (sp.1, sp.2.creditEmit) }

/-- Elements a local path has received, in order. -/
def LocalPath.delivered (pp : LocalPath α) : List (Topic × α) :=
  pp.emitted ++ pp.cache

/-- Lookup in an association list modelling an `unordered_map`. -/
def lookupA (k : Nat) : List (Nat × β) → Option β
  | [] => none
  | (k2, v) :: rest => if k == k2 then some v else lookupA k rest

/-- Erase by key (`map.erase(key)` and `map.erase(iterator)` alike). -/
def eraseA (k : Nat) (m : List (Nat × β)) : List (Nat × β) :=
  m.filter fun kv => kv.1 != k

/-- The `emplace` call of `unordered_map`: inserts only when the key is not
present and reports whether an insertion happened. -/
def emplaceA (k : Nat) (v : β) (m : List (Nat × β)) : List (Nat × β) × Bool :=
  if (lookupA k m).isSome then (m, false) else ((k, v) :: m, true)

/-- An inbound batch (the `caf::message` dispatched by `handle_batch`). -/
inductive Batch where
  | peer (xs : List NodeMessage)
  | worker (xs : List DataMessage)
  | store (xs : List CommandMessage)
  | var (xs : List NodeMessageContent)
  | other

/-- A `pending_connection` record: stream slot (`0` = invalid, i.e. only
step #0 performed) and the identity of the stored reply promise. -/
structure PendingConnection where
  slot : Slot
  rp : Nat

/-- Observable side effects of the transport, in order of occurrence. -/
inductive Event where
  | peerPush (m : NodeMessage) (activeSender : Option Addr)
  | warnExpiredTTL
  | errorLog (s : String)
  | debugDroppedBlocked (p : Hdl)
  | removeOutPath (s : Slot) (reason : Option Nat) (silent : Bool)
  | removeInPath (s : Slot) (reason : Option Nat) (silent : Bool)
  | peerRemoved (hdl : Hdl)
  | peerDisconnected (hdl : Hdl) (reason : Option Nat)
  | cacheRemove (hdl : Hdl)
  | quit
  | wakePush
  | deliverInvalidArgument (rp : Nat)
  | deliverSuccess (rp : Nat)
  | sendPeerMsg (dest : Hdl) (filter : Filter)
  | monitor (hdl : Hdl)

/-- The state of one `stream_transport`: the three fused managers, the four
path maps, the block/buffer state, pending connections and the
configuration the handlers read (`options().forward`, `options().ttl`,
`shutting_down()`, `filter()`). -/
structure Transport where
  peerMgr : PeerMgr
  workerMgr : LocalMgr Data
  storeMgr : LocalMgr InternalCommand
  hdl_to_ostream : List (Hdl × Slot)
  ostream_to_peer : List (Slot × Hdl)
  hdl_to_istream : List (Hdl × Slot)
  istream_to_hdl : List (Slot × Hdl)
  blocked_peers : List Hdl
  blocked_msgs : List (Hdl × List Batch)
  pending : List (Hdl × PendingConnection)
  shutting_down : Bool
  optForward : Bool
  optTtl : Nat
  selfFilter : Filter

/-- `connected_to(hdl)`: the peer appears in at least one direction. -/
def connected_to (hdl : Hdl) (st : Transport) : Bool :=
  (lookupA hdl st.hdl_to_ostream).isSome || (lookupA hdl st.hdl_to_istream).isSome

/-- `remote_push(msg)`: push into the peer manager's central buffer, then
`emit_batches()`. The recorded event notes the selector state in effect at
the time of the push. -/
def remote_push (msg : NodeMessage) (st : Transport) : Transport × List Event :=
  let m := st.peerMgr
  let m2 := { m with buf := m.buf ++ [msg] }
  ({ st with peerMgr := m2.emitBatches }, [Event.peerPush msg m.activeSender])

/-- `push(data_message)`: wrap into a node message carrying the configured
initial TTL (`options().ttl`) and `remote_push` it. The `local_push` call
is commented out in the source. -/
def push_data (msg : DataMessage) (st : Transport) : Transport × List Event :=
  remote_push { content := .dataMsg msg, ttl := st.optTtl } st

/-- `push(command_message)`: wrap and `remote_push`, as for data. -/
def push_command (msg : CommandMessage) (st : Transport) : Transport × List Event :=
  remote_push { content := .commandMsg msg, ttl := st.optTtl } st

/-- `push(message_type)`: forward a node message unchanged to
`remote_push`. -/
def push_node (msg : NodeMessage) (st : Transport) : Transport × List Event :=
  remote_push msg st

/-- `publish(node_message_content)`: visit the content and ship it, which
lands in the matching `push` overload. -/
def publish_content (c : NodeMessageContent) (st : Transport) : Transport × List Event :=
  match c with
  | .dataMsg dm => push_data dm st
  | .commandMsg cm => push_command cm st

/-- `local_push(data_message)`: push to the worker manager and emit batches,
but only when it has at least one path. -/
def local_push_data (msg : DataMessage) (st : Transport) : Transport :=
  if st.workerMgr.paths.length > 0 then
    { st with workerMgr := (st.workerMgr.push msg).emitBatches }
  else st

/-- `local_push(command_message)`: push to the store manager and emit
batches, but only when it has at least one path. -/
def local_push_command (msg : CommandMessage) (st : Transport) : Transport :=
  if st.storeMgr.paths.length > 0 then
    { st with storeMgr := (st.storeMgr.push msg).emitBatches }
  else st

/-- The body of the peer-batch loop of `handle_batch` for one node message:
deliver the content locally (worker or store manager, if it had paths at
batch start), then forward to peers subject to the forward option, the
clone-suffix check and the TTL decrement (`--msg.ttl` on a `uint16_t`). -/
def processPeerMsg (numWorkers numStores : Nat) (acc : Transport × List Event)
    (msg : NodeMessage) : Transport × List Event :=
  let st := acc.1
  let st1 :=
    match msg.content with
    | .dataMsg dm =>
      if numWorkers > 0 then { st with workerMgr := st.workerMgr.push dm } else st
    | .commandMsg cm =>
      if numStores > 0 then { st with storeMgr := st.storeMgr.push cm } else st
  if !st1.optForward then (st1, acc.2)
  else if srcEndsWith (topicOf msg.content) cloneSuffix then (st1, acc.2)
  else
    let t := (msg.ttl + 65535) % 65536
    if t == 0 then (st1, acc.2 ++ [Event.warnExpiredTTL])
    else
      let r := push_node { msg with ttl := t } st1
      (r.1, acc.2 ++ r.2)

/-- Body of `handle_batch` between the scope-guard bracket: classify the
batch, buffer peer batches from blocked senders, dispatch peer batches via
`processPeerMsg`, republish worker / store / variant batches, and log an
error otherwise. -/
def handleBatchBody (hdl : Hdl) (xs : Batch) (st : Transport) : Transport × List Event :=
  match xs with
  | .peer msgs =>
    if st.blocked_peers.contains hdl then
      ({ st with blocked_msgs :=
          match lookupA hdl st.blocked_msgs with
          | some bs => (hdl, bs ++ [Batch.peer msgs]) :: eraseA hdl st.blocked_msgs
          | none => (hdl, [Batch.peer msgs]) :: st.blocked_msgs }, [])
    else
      let numWorkers := st.workerMgr.paths.length
      let numStores := st.storeMgr.paths.length
      msgs.foldl (processPeerMsg numWorkers numStores) (st, [])
  | .worker es =>
    es.foldl (fun acc e => let r := push_data e acc.1; (r.1, acc.2 ++ r.2)) (st, [])
  | .store es =>
    es.foldl (fun acc e => let r := push_command e acc.1; (r.1, acc.2 ++ r.2)) (st, [])
  | .var cs =>
    cs.foldl (fun acc c => let r := publish_content c acc.1; (r.1, acc.2 ++ r.2)) (st, [])
  | .other => (st, [Event.errorLog "unexpected batch"])

/-- `handle_batch(hdl, xs)`: flush the peer manager's central buffer under
the pre-existing selector state, install `hdl`'s address as active sender,
run the body, and (scope guard, also on the early blocked return) flush
again while the sender is still active before resetting it to null. -/
def handle_batch (hdl : Hdl) (xs : Batch) (st : Transport) : Transport × List Event :=
  let st1 := { st with peerMgr := st.peerMgr.fanOutFlush }
  let st2 := { st1 with peerMgr := { st1.peerMgr with activeSender := some hdl } }
  let r := handleBatchBody hdl xs st2
  let st4 := { r.1 with peerMgr := r.1.peerMgr.fanOutFlush }
  ({ st4 with peerMgr := { st4.peerMgr with activeSender := none } }, r.2)

/-- `block_peer(peer)`: add the peer to the blocked set. -/
def block_peer (p : Hdl) (st : Transport) : Transport :=
  { st with blocked_peers := st.blocked_peers ++ [p] }

/-- `unblock_peer(peer)`: erase from the blocked set; without buffered
batches nothing else happens; with buffered batches they are either
replayed in order through `handle_batch` (inbound path still there) or
dropped (inbound path gone), and the buffer entry is erased. -/
def unblock_peer (p : Hdl) (st : Transport) : Transport × List Event :=
  let st1 := { st with blocked_peers := st.blocked_peers.filter (fun q => q != p) }
  match lookupA p st1.blocked_msgs with
  | none => (st1, [])
  | some batches =>
    match lookupA p st1.hdl_to_istream with
    | none =>
      ({ st1 with blocked_msgs := eraseA p st1.blocked_msgs },
       [Event.debugDroppedBlocked p])
    | some _ =>
      let r := batches.foldl
        (fun acc b => let r2 := handle_batch p b acc.1; (r2.1, acc.2 ++ r2.2))
        (st1, [])
      ({ r.1 with blocked_msgs := eraseA p r.1.blocked_msgs }, r.2)

/-- `add_ipath(slot, peer_hdl)`: reject the invalid slot, then emplace into
`istream_to_hdl_` and `hdl_to_istream_` with duplicate detection; a failed
second emplace leaves the first insertion in place. -/
def add_ipath (slot : Slot) (hdl : Hdl) (st : Transport) : Transport × List Event :=
  if slot == 0 then (st, [Event.errorLog "tried to add an invalid inbound path"])
  else
    let r1 := emplaceA slot hdl st.istream_to_hdl
    if r1.2 = false then (st, [Event.errorLog "ipath_to_peer entry already exists"])
    else
      let st1 := { st with istream_to_hdl := r1.1 }
      let r2 := emplaceA hdl slot st1.hdl_to_istream
      if r2.2 = false then (st1, [Event.errorLog "peer_to_ipath entry already exists"])
      else ({ st1 with hdl_to_istream := r2.1 }, [])

/-- `add_opath(slot, peer_hdl)`: the outbound analogue of `add_ipath`. -/
def add_opath (slot : Slot) (hdl : Hdl) (st : Transport) : Transport × List Event :=
  if slot == 0 then (st, [Event.errorLog "tried to add an invalid outbound path"])
  else
    let r1 := emplaceA slot hdl st.ostream_to_peer
    if r1.2 = false then (st, [Event.errorLog "opath_to_peer entry already exists"])
    else
      let st1 := { st with ostream_to_peer := r1.1 }
      let r2 := emplaceA hdl slot st1.hdl_to_ostream
      if r2.2 = false then (st1, [Event.errorLog "peer_to_opath entry already exists"])
      else ({ st1 with hdl_to_ostream := r2.1 }, [])

/-- Removes slot `s` from the peer manager (`out().remove_path` for a slot
assigned to the peer manager). -/
def PeerMgr.removePath (s : Slot) (m : PeerMgr) : PeerMgr :=
  { m with paths := m.paths.filter fun sp => sp.1 != s }

/-- `remove_peer(hdl, reason, silent, graceful)`: tear down the outbound and
inbound halves that exist, return `false` without callbacks when neither
did, otherwise run the graceful/abrupt callback, evict the cache entry, and
either quit (shutting down with no outbound path left) or wake the
pipeline. -/
def remove_peer (hdl : Hdl) (reason : Option Nat) (silent graceful : Bool)
    (st : Transport) : Bool × Transport × List Event :=
  let o := lookupA hdl st.hdl_to_ostream
  let st1 :=
    match o with
    | some s =>
      { st with
        peerMgr := st.peerMgr.removePath s,
        ostream_to_peer := eraseA s st.ostream_to_peer,
        hdl_to_ostream := eraseA hdl st.hdl_to_ostream }
    | none => st
  let evs1 := match o with
    | some s => [Event.removeOutPath s reason silent]
    | none => []
  let i := lookupA hdl st1.hdl_to_istream
  let st2 :=
    match i with
    | some s =>
      { st1 with
        istream_to_hdl := eraseA s st1.istream_to_hdl,
        hdl_to_istream := eraseA hdl st1.hdl_to_istream }
    | none => st1
  let evs2 := match i with
    | some s => [Event.removeInPath s reason silent]
    | none => []
  if o.isNone && i.isNone then (false, st2, evs1 ++ evs2)
  else
    let evs3 := if graceful then [Event.peerRemoved hdl]
                else [Event.peerDisconnected hdl reason]
    let evs5 := if st2.shutting_down && st2.hdl_to_ostream.isEmpty
                then [Event.quit] else [Event.wakePush]
    (true, st2, evs1 ++ evs2 ++ evs3 ++ [Event.cacheRemove hdl] ++ evs5)

/-- `start_peering(id, remote, rp)`: reject a null remote with
invalid-argument; deliver success idempotently while pending or connected;
otherwise install the pending record with the invalid slot, send
`(PEER, own filter, self)` and monitor the remote. `none` models the null
actor handle. -/
def start_peering (remote : Option Hdl) (rp : Nat) (st : Transport) :
    Transport × List Event :=
  match remote with
  | none => (st, [Event.deliverInvalidArgument rp])
  | some r =>
    if (lookupA r st.pending).isSome || connected_to r st then
      (st, [Event.deliverSuccess rp])
    else
      ({ st with pending := (r, PendingConnection.mk 0 rp) :: st.pending },
       [Event.sendPeerMsg r st.selfFilter, Event.monitor r])

/-- An entity id `(endpoint, object)`; `none` models an invalid
`caf::node_id` and makes the whole id invalid (`operator bool`). -/
structure EntityId where
  endpoint : Option Nat
  object : Nat

/-- Validity of an entity id (`explicit operator bool`). -/
def EntityId.isValid (x : EntityId) : Bool := x.endpoint.isSome

/-- Modelled from the spec: the `to<data>` conversion of a `caf::node_id`
(defined outside the excerpt); converting a valid node id succeeds. -/
def nodeIdToData : Option Nat → Option Data
  | some n => some (Data.cnt n)
  | none => none

/-- The generic `append` of `store_actor.cc` at type `std::string`. -/
def appendStr (xs : List Data) (s : String) : List Data := xs ++ [Data.str s]

/-- The generic `append` of `store_actor.cc` at type `data`. -/
def appendData (xs : List Data) (d : Data) : List Data := xs ++ [d]

/-- The `append` overload for `optional<timespan>`: the value or nil. -/
def appendOptSpan (xs : List Data) : Option Int → List Data
  | some t => xs ++ [Data.span t]
  | none => xs ++ [Data.nil]

/-- The `append` overload for `entity_id`: two slots `(endpoint, object)`
when the id is valid and its endpoint converts, `(nil, nil)` otherwise. -/
def appendEntity (xs : List Data) (x : EntityId) : List Data :=
  if x.isValid then
    match nodeIdToData x.endpoint with
    | some ep => xs ++ [ep, Data.cnt x.object]
    | none => xs ++ [Data.nil, Data.nil]
  else xs ++ [Data.nil, Data.nil]

/-- `emit_insert_event`: the published data message on the store-events
topic, its payload built by `fill_vector(xs, "insert"s, key, value, expiry,
publisher)`. -/
def emit_insert_event (key value : Data) (expiry : Option Int)
    (publisher : EntityId) : DataMessage :=
  (storeEventsTopic,
   Data.vec (appendEntity
     (appendOptSpan (appendData (appendData (appendStr [] "insert") key) value)
       expiry) publisher))

/-- `emit_update_event`: as insert, with the old value before the new one. -/
def emit_update_event (key oldValue newValue : Data) (expiry : Option Int)
    (publisher : EntityId) : DataMessage :=
  (storeEventsTopic,
   Data.vec (appendEntity
     (appendOptSpan
       (appendData (appendData (appendData (appendStr [] "update") key) oldValue)
         newValue) expiry) publisher))

/-- `emit_erase_event`: only the key and the publisher. -/
def emit_erase_event (key : Data) (publisher : EntityId) : DataMessage :=
  (storeEventsTopic,
   Data.vec (appendEntity (appendData (appendStr [] "erase") key) publisher))

/-- Modelled from the spec: the two trailing entity slots of a store event,
`(endpoint, object)` for a valid entity and `(nil, nil)` for an invalid
one. -/
def entitySlots (x : EntityId) : List Data :=
  match x.endpoint with
  | some ep => [Data.cnt ep, Data.cnt x.object]
  | none => [Data.nil, Data.nil]

/-- Modelled from the spec: `expiry-or-nil`. -/
def expiryOrNil : Option Int → Data
  | some t => Data.span t
  | none => Data.nil

/-- Data content of a node message, if it is a data message. -/
def dataContentOf (m : NodeMessage) : Option DataMessage :=
  match m.content with
  | .dataMsg dm => some dm
  | .commandMsg _ => none

/-- Command content of a node message, if it is a command message. -/
def cmdContentOf (m : NodeMessage) : Option CommandMessage :=
  match m.content with
  | .dataMsg _ => none
  | .commandMsg cm => some cm

/-- Two association lists are inverse finite maps. -/
def invA (A B : List (Nat × Nat)) : Prop :=
  ∀ h s, lookupA h A = some s ↔ lookupA s B = some h

/-- The path-table bijection invariant P1: the handle-to-slot and
slot-to-handle maps are inverse to each other, in both directions. -/
def pathMapsInverse (st : Transport) : Prop :=
  invA st.hdl_to_ostream st.ostream_to_peer
  ∧ invA st.hdl_to_istream st.istream_to_hdl

/-- Path-table operations, for stating the bookkeeping invariant. -/
inductive PathOp where
  | addI (slot : Slot) (hdl : Hdl)
  | addO (slot : Slot) (hdl : Hdl)
  | rm (hdl : Hdl)

/-- Apply one path-table operation (`remove_peer` with fixed reason and
flags; its effect on the path maps does not depend on them). -/
def applyPathOp (st : Transport) : PathOp → Transport
  | .addI s h => (add_ipath s h st).1
  | .addO s h => (add_opath s h st).1
  | .rm h => (remove_peer h none true true st).2.1

/-- Apply a sequence of path-table operations. -/
def applyPathOps (ops : List PathOp) (st : Transport) : Transport :=
  ops.foldl applyPathOp st

/-- An add is harmless when the slot is invalid, the slot already has an
entry (the first emplace fails and nothing changes), or the handle is fresh
in its direction (both emplaces succeed). -/
def addOk (slotMap hdlMap : List (Nat × Nat)) (s h : Nat) : Bool :=
  s == 0 || (lookupA s slotMap).isSome || (lookupA h hdlMap).isNone

/-- Checks that every add in a sequence of path-table operations is
harmless at the state where it runs. -/
def pathOpsOk (st : Transport) : List PathOp → Bool
  | [] => true
  | op :: rest =>
    (match op with
     | .addI s h => addOk st.istream_to_hdl st.hdl_to_istream s h
     | .addO s h => addOk st.ostream_to_peer st.hdl_to_ostream s h
     | .rm _ => true)
    && pathOpsOk (applyPathOp st op) rest

/-- Invariant I-FAN for one inbound peer batch: the transport ends with a
null active sender and an empty central buffer, every push into the peer
manager during the call happened under active sender `p`, and a path whose
recorded sender-address equals `p` receives exactly the messages that were
already buffered before the call (flushed under the pre-existing empty
active sender, hence filtered only by the path's topic filter) and nothing
forwarded from the batch. -/
def FanOutExclusionProp (p : Hdl) (msgs : List NodeMessage) (st : Transport) : Prop :=
  let r := handle_batch p (Batch.peer msgs) st
  r.1.peerMgr.activeSender = none ∧
  r.1.peerMgr.buf = [] ∧
  (∀ m as, Event.peerPush m as ∈ r.2 → as = some p) ∧
  ∀ (i : Nat) (s : Slot) (pp : PeerPath),
    st.peerMgr.paths[i]? = some (s, pp) → pp.addr = p →
    ∃ pp2, r.1.peerMgr.paths[i]? = some (s, pp2) ∧ pp2.addr = pp.addr ∧
      pp2.fil = pp.fil ∧
      pp2.delivered = pp.delivered ++
        st.peerMgr.buf.filter (peerAccepts none pp.addr pp.fil)

/-- TTL behaviour of the forwarding step for one node message that reaches
it: arrival TTL 1 decrements to zero and is dropped with a warning, never
pushed; arrival TTL between 2 and 65535 is pushed exactly once with a
strictly smaller TTL; arrival TTL 0 wraps around the 16-bit counter and is
pushed with TTL 65535. -/
def TtlForwardProp (numWorkers numStores : Nat) (st : Transport)
    (evs : List Event) (msg : NodeMessage) : Prop :=
  let r := processPeerMsg numWorkers numStores (st, evs) msg
  (msg.ttl = 1 → r.1.peerMgr = st.peerMgr ∧ r.2 = evs ++ [Event.warnExpiredTTL]) ∧
  (2 ≤ msg.ttl → msg.ttl ≤ 65535 →
    r.2 = evs ++ [Event.peerPush { msg with ttl := msg.ttl - 1 } st.peerMgr.activeSender]
    ∧ msg.ttl - 1 < msg.ttl) ∧
  (msg.ttl = 0 →
    r.2 = evs ++ [Event.peerPush { msg with ttl := 65535 } st.peerMgr.activeSender])

/-- Batch-level TTL behaviour: every event of `handle_batch` on an inbound
peer batch is either the TTL warning or a push of some batch message on a
non-clone topic whose TTL was decremented exactly once modulo `2 ^ 16` to a
nonzero value. -/
def TtlBatchProp (p : Hdl) (msgs : List NodeMessage) (st : Transport) : Prop :=
  ∀ e ∈ (handle_batch p (Batch.peer msgs) st).2,
    e = Event.warnExpiredTTL ∨
    ∃ m ∈ msgs, srcEndsWith (topicOf m.content) cloneSuffix = false ∧
      (m.ttl + 65535) % 65536 ≠ 0 ∧
      ∃ as2, e = Event.peerPush
        { content := m.content, ttl := (m.ttl + 65535) % 65536 } as2

/-- Behaviour of `handle_batch` on a peer batch from a blocked sender: the
whole batch is appended to `blocked_msgs[sender]`, nothing is delivered
(no events, worker and store managers and all tables untouched), but the
flush / active-sender bracket still runs: the central buffer has been
flushed into the per-path caches. -/
def BlockedPeerBatchProp (p : Hdl) (msgs : List NodeMessage) (st : Transport) : Prop :=
  let r := handle_batch p (Batch.peer msgs) st
  r.2 = [] ∧
  lookupA p r.1.blocked_msgs
    = some ((lookupA p st.blocked_msgs).getD [] ++ [Batch.peer msgs]) ∧
  (∀ q, q ≠ p → lookupA q r.1.blocked_msgs = lookupA q st.blocked_msgs) ∧
  r.1.workerMgr = st.workerMgr ∧ r.1.storeMgr = st.storeMgr ∧
  r.1.hdl_to_ostream = st.hdl_to_ostream ∧ r.1.ostream_to_peer = st.ostream_to_peer ∧
  r.1.hdl_to_istream = st.hdl_to_istream ∧ r.1.istream_to_hdl = st.istream_to_hdl ∧
  r.1.blocked_peers = st.blocked_peers ∧ r.1.pending = st.pending ∧
  r.1.peerMgr.activeSender = none ∧ r.1.peerMgr.buf = [] ∧
  r.1.peerMgr.paths = st.peerMgr.fanOutFlush.paths

/-- Behaviour of `handle_batch` on an arbitrary (mixed) inbound peer
batch, per message: each data content lands in the worker buffer and each
command content in the store buffer exactly when that manager had at least
one path at batch start, and a message whose topic ends with the clone
suffix is never pushed to the peer manager (with any TTL), regardless of
the forward option and of the TTLs. -/
def ClonePeerBatchProp (p : Hdl) (msgs : List NodeMessage) (st : Transport) : Prop :=
  let r := handle_batch p (Batch.peer msgs) st
  r.1.workerMgr.buf = st.workerMgr.buf ++
    (if st.workerMgr.paths.length > 0 then msgs.filterMap dataContentOf else []) ∧
  r.1.workerMgr.paths = st.workerMgr.paths ∧
  r.1.storeMgr.buf = st.storeMgr.buf ++
    (if st.storeMgr.paths.length > 0 then msgs.filterMap cmdContentOf else []) ∧
  r.1.storeMgr.paths = st.storeMgr.paths ∧
  (∀ m ∈ msgs, ∀ dm, m.content = .dataMsg dm →
    st.workerMgr.paths.length > 0 → dm ∈ r.1.workerMgr.buf) ∧
  (∀ m ∈ msgs, ∀ cm, m.content = .commandMsg cm →
    st.storeMgr.paths.length > 0 → cm ∈ r.1.storeMgr.buf) ∧
  (∀ m ∈ msgs, srcEndsWith (topicOf m.content) cloneSuffix = true →
    ∀ e ∈ r.2, ∀ t2 as2,
      e ≠ Event.peerPush { content := m.content, ttl := t2 } as2)

/-- Behaviour of `remove_peer`: `false` and no change and no callback when
no half existed; otherwise `true`, both halves gone from all four maps,
other peers untouched, exactly the graceful or the abrupt callback, cache
eviction, and quit exactly when shutting down with no outbound path left,
else a pipeline wake-up. -/
def RemovePeerProp (hdl : Hdl) (reason : Option Nat) (silent graceful : Bool)
    (st : Transport) : Prop :=
  let r := remove_peer hdl reason silent graceful st
  (connected_to hdl st = false → r = (false, st, [])) ∧
  (connected_to hdl st = true →
    r.1 = true ∧
    lookupA hdl r.2.1.hdl_to_ostream = none ∧
    lookupA hdl r.2.1.hdl_to_istream = none ∧
    (∀ s, lookupA s r.2.1.ostream_to_peer ≠ some hdl) ∧
    (∀ s, lookupA s r.2.1.istream_to_hdl ≠ some hdl) ∧
    (∀ h2, h2 ≠ hdl →
      lookupA h2 r.2.1.hdl_to_ostream = lookupA h2 st.hdl_to_ostream ∧
      lookupA h2 r.2.1.hdl_to_istream = lookupA h2 st.hdl_to_istream) ∧
    (graceful = true → Event.peerRemoved hdl ∈ r.2.2 ∧
      ∀ rr, Event.peerDisconnected hdl rr ∉ r.2.2) ∧
    (graceful = false → Event.peerDisconnected hdl reason ∈ r.2.2 ∧
      Event.peerRemoved hdl ∉ r.2.2) ∧
    Event.cacheRemove hdl ∈ r.2.2 ∧
    (st.shutting_down = true ∧ r.2.1.hdl_to_ostream.isEmpty = true →
      Event.quit ∈ r.2.2 ∧ Event.wakePush ∉ r.2.2) ∧
    (st.shutting_down = false ∨ r.2.1.hdl_to_ostream.isEmpty = false →
      Event.wakePush ∈ r.2.2 ∧ Event.quit ∉ r.2.2))

/-- The replay fold of `unblock_peer`: batches go through `handle_batch`
with sender `p`, first to last, accumulating events. -/
def replayBatches (p : Hdl) (batches : List Batch) (st : Transport) :
    Transport × List Event :=
  batches.foldl
    (fun acc b => let r2 := handle_batch p b acc.1; (r2.1, acc.2 ++ r2.2))
    (st, [])

/-- Behaviour of `unblock_peer`: `p` leaves the blocked set; with no
buffered batches nothing else happens (a no-op for a never-blocked peer);
with buffered batches and a live inbound path they are replayed in FIFO
order through `handle_batch` and the buffer entry is erased; with the
inbound path gone they are discarded unprocessed. -/
def UnblockPeerProp (p : Hdl) (st : Transport) : Prop :=
  let erased := st.blocked_peers.filter (fun q => q != p)
  let r := unblock_peer p st
  r.1.blocked_peers = erased ∧
  (st.blocked_peers.contains p = false → r.1.blocked_peers = st.blocked_peers) ∧
  (lookupA p st.blocked_msgs = none →
    r = ({ st with blocked_peers := erased }, [])) ∧
  (∀ batches, lookupA p st.blocked_msgs = some batches →
    (lookupA p st.hdl_to_istream = none →
      r = ({ st with blocked_peers := erased,
                     blocked_msgs := eraseA p st.blocked_msgs },
           [Event.debugDroppedBlocked p])) ∧
    (lookupA p st.hdl_to_istream ≠ none →
      let f := replayBatches p batches { st with blocked_peers := erased }
      r = ({ f.1 with blocked_msgs := eraseA p f.1.blocked_msgs }, f.2)))

-- Concrete states and values used by witnesses and counterexamples.

/-- Sample payload. -/
def exData : Data := Data.str "v"

/-- Sample data message on topic `a`. -/
def exDM : DataMessage := ("a", exData)

/-- Sample node message with TTL 5. -/
def exMsg5 : NodeMessage := { content := .dataMsg exDM, ttl := 5 }

/-- Sample node message with TTL 0. -/
def exMsg0 : NodeMessage := { content := .dataMsg exDM, ttl := 0 }

/-- Sample clone-suffixed data node message. -/
def exCloneMsg : NodeMessage := { content := .dataMsg ("s/clone", exData), ttl := 5 }

/-- Sample clone-suffixed command node message. -/
def exCloneCmdMsg : NodeMessage := { content := .commandMsg ("s/clone", 1), ttl := 5 }

/-- An empty transport with forwarding enabled and initial TTL 20. -/
def baseSt : Transport :=
  { peerMgr := { activeSender := none, buf := [], paths := [] },
    workerMgr := { buf := [], paths := [] },
    storeMgr := { buf := [], paths := [] },
    hdl_to_ostream := [], ostream_to_peer := [],
    hdl_to_istream := [], istream_to_hdl := [],
    blocked_peers := [], blocked_msgs := [], pending := [],
    shutting_down := false, optForward := true, optTtl := 20,
    selfFilter := ["a"] }

/-- Transport with one peer path whose recorded sender-address is `3` and a
buffered message, used against inbound batches from peer `3`. -/
def stC1 : Transport :=
  { baseSt with peerMgr :=
      { activeSender := none, buf := [exMsg5],
        paths := [(4, { addr := 3, fil := ["a"], cache := [], emitted := [], credit := 2 })] } }

/-- Transport with one peer path (sender-address `9`, zero credit). -/
def stC2 : Transport :=
  { baseSt with peerMgr :=
      { activeSender := none, buf := [],
        paths := [(4, { addr := 9, fil := ["a"], cache := [], emitted := [], credit := 0 })] } }

/-- Transport with peer `3` blocked and a buffered outbound message. -/
def stC3 : Transport :=
  { baseSt with blocked_peers := [3],
                peerMgr := { activeSender := none, buf := [exMsg5], paths := [] } }

/-- Transport with one worker path subscribed to `s`. -/
def stC4 : Transport :=
  { baseSt with workerMgr :=
      { buf := [], paths := [(6, { fil := ["s"], cache := [], emitted := [], credit := 1 })] } }

/-- Transport with a pending connection to peer `5`. -/
def stC6 : Transport :=
  { baseSt with pending := [(5, { slot := 0, rp := 1 })] }

/-- Transport fully peered with peer `5` on slots 4 (out) and 2 (in). -/
def stC7 : Transport :=
  { baseSt with
      hdl_to_ostream := [(5, 4)], ostream_to_peer := [(4, 5)],
      hdl_to_istream := [(5, 2)], istream_to_hdl := [(2, 5)],
      peerMgr := { activeSender := none, buf := [],
                   paths := [(4, { addr := 5, fil := ["a"], cache := [], emitted := [], credit := 1 })] } }

/-- Transport with peer `3` blocked, one buffered batch and a live inbound
path from `3`. -/
def stC8 : Transport :=
  { baseSt with
      blocked_peers := [3],
      blocked_msgs := [(3, [Batch.peer [exMsg5]])],
      hdl_to_istream := [(3, 2)], istream_to_hdl := [(2, 3)] }

-- Association-list lemmas.

theorem lookupA_eraseA (k a : Nat) (m : List (Nat × β)) :
    lookupA a (eraseA k m) = if a = k then none else lookupA a m := by
  induction m with
  | nil => simp [eraseA, lookupA]
  | cons kv rest ih =>
    obtain ⟨k2, v⟩ := kv
    by_cases h2 : k2 = k <;> by_cases h3 : a = k2 <;>
      simp_all [eraseA, List.filter_cons, lookupA]

-- C9: store-event payload encoding.

/-- C9: `emit_insert_event` publishes on the store-events topic the
positional payload `("insert", key, value, expiry-or-nil, endpoint,
object)` with the entity occupying two trailing slots, `(nil, nil)` when it
is invalid; `emit_update_event` inserts the old value before the new one
with kind `"update"`; `emit_erase_event` carries only the key and the
publisher with kind `"erase"`. -/
theorem store_events_positional (key value oldV newV : Data)
    (expiry : Option Int) (pub : EntityId) :
    emit_insert_event key value expiry pub
      = (storeEventsTopic,
         Data.vec ([Data.str "insert", key, value, expiryOrNil expiry]
           ++ entitySlots pub)) ∧
    emit_update_event key oldV newV expiry pub
      = (storeEventsTopic,
         Data.vec ([Data.str "update", key, oldV, newV, expiryOrNil expiry]
           ++ entitySlots pub)) ∧
    emit_erase_event key pub
      = (storeEventsTopic,
         Data.vec ([Data.str "erase", key] ++ entitySlots pub)) := by
  obtain ⟨ep, obj⟩ := pub
  cases ep <;> cases expiry <;>
    simp [emit_insert_event, emit_update_event, emit_erase_event, appendEntity,
          EntityId.isValid, nodeIdToData, appendOptSpan, appendData, appendStr,
          entitySlots, expiryOrNil]

-- C10: `push` reaches only the peer manager.

/-- C10: `push` on a data or command message wraps it into a node message
carrying the configured initial TTL and records exactly one push into the
peer manager; the worker and store managers and all bookkeeping tables are
untouched, while `local_push` conversely never touches the peer manager. -/
theorem push_remote_only (st : Transport) (dm : DataMessage) (cm : CommandMessage) :
    (push_data dm st).1.workerMgr = st.workerMgr ∧
    (push_data dm st).1.storeMgr = st.storeMgr ∧
    (push_data dm st).1.hdl_to_ostream = st.hdl_to_ostream ∧
    (push_data dm st).1.ostream_to_peer = st.ostream_to_peer ∧
    (push_data dm st).1.hdl_to_istream = st.hdl_to_istream ∧
    (push_data dm st).1.istream_to_hdl = st.istream_to_hdl ∧
    (push_data dm st).1.blocked_peers = st.blocked_peers ∧
    (push_data dm st).1.blocked_msgs = st.blocked_msgs ∧
    (push_data dm st).2
      = [Event.peerPush { content := .dataMsg dm, ttl := st.optTtl }
           st.peerMgr.activeSender] ∧
    (push_command cm st).1.workerMgr = st.workerMgr ∧
    (push_command cm st).1.storeMgr = st.storeMgr ∧
    (push_command cm st).2
      = [Event.peerPush { content := .commandMsg cm, ttl := st.optTtl }
           st.peerMgr.activeSender] ∧
    (local_push_data dm st).peerMgr = st.peerMgr ∧
    (local_push_data dm st).storeMgr = st.storeMgr ∧
    (local_push_command cm st).peerMgr = st.peerMgr ∧
    (local_push_command cm st).workerMgr = st.workerMgr := by
  refine ⟨rfl, rfl, rfl, rfl, rfl, rfl, rfl, rfl, rfl, rfl, rfl, rfl, ?_, ?_, ?_, ?_⟩ <;>
    · simp only [local_push_data, local_push_command]
      split <;> rfl

-- C6: `start_peering` case analysis.

/-- C6: `start_peering` delivers invalid-argument for a null remote leaving
the state unchanged; delivers success idempotently while the remote is
pending or connected, creating no pending entry, no message, no monitor;
otherwise installs the pending record with the invalid slot and the
promise, sends `(PEER, own filter, self)` and installs a monitor. -/
theorem start_peering_spec (st : Transport) (rp : Nat) :
    (start_peering none rp st = (st, [Event.deliverInvalidArgument rp])) ∧
    (∀ r, ((lookupA r st.pending).isSome || connected_to r st) = true →
      start_peering (some r) rp st = (st, [Event.deliverSuccess rp])) ∧
    (∀ r, ((lookupA r st.pending).isSome || connected_to r st) = false →
      start_peering (some r) rp st
        = ({ st with pending := (r, { slot := 0, rp := rp }) :: st.pending },
           [Event.sendPeerMsg r st.selfFilter, Event.monitor r])) := by
  refine ⟨rfl, ?_, ?_⟩ <;> intro r h <;> simp [start_peering, h]

/-- Witness for C6 at a pending remote: success is delivered idempotently. -/
theorem start_peering_spec_witness :
    ((lookupA 5 stC6.pending).isSome || connected_to 5 stC6) = true ∧
    start_peering (some 5) 1 stC6 = (stC6, [Event.deliverSuccess 1]) :=
  ⟨rfl, (start_peering_spec stC6 1).2.1 5 rfl⟩

-- C5: path-map bijection.

theorem invA_insert {A B : List (Nat × Nat)} (hInv : invA A B) {h0 s0 : Nat}
    (hA : lookupA h0 A = none) (hB : lookupA s0 B = none) :
    invA ((h0, s0) :: A) ((s0, h0) :: B) := by
  intro h s
  constructor
  · intro hh
    by_cases he : h = h0
    · subst he
      simp only [lookupA, beq_self_eq_true, if_true] at hh
      obtain rfl : s = s0 := by simpa using hh.symm
      simp [lookupA]
    · rw [lookupA, if_neg (by simpa using he)] at hh
      have hb := (hInv h s).mp hh
      by_cases hs : s = s0
      · subst hs
        rw [hB] at hb
        cases hb
      · rw [lookupA, if_neg (by simpa using hs)]
        exact hb
  · intro hh
    by_cases hs : s = s0
    · subst hs
      simp only [lookupA, beq_self_eq_true, if_true] at hh
      obtain rfl : h = h0 := by simpa using hh.symm
      simp [lookupA]
    · rw [lookupA, if_neg (by simpa using hs)] at hh
      have ha := (hInv h s).mpr hh
      by_cases he : h = h0
      · subst he
        rw [hA] at ha
        cases ha
      · rw [lookupA, if_neg (by simpa using he)]
        exact ha

theorem invA_erase {A B : List (Nat × Nat)} (hInv : invA A B) {h0 s0 : Nat}
    (hm : lookupA h0 A = some s0) :
    invA (eraseA h0 A) (eraseA s0 B) := by
  have hmB : lookupA s0 B = some h0 := (hInv h0 s0).mp hm
  intro h s
  rw [lookupA_eraseA, lookupA_eraseA]
  by_cases he : h = h0
  · rw [if_pos he]
    constructor
    · intro hh
      cases hh
    · intro hh
      by_cases hs : s = s0
      · rw [if_pos hs] at hh
        cases hh
      · rw [if_neg hs] at hh
        have h2 := (hInv h s).mpr hh
        rw [he, hm] at h2
        exact absurd (Option.some.inj h2).symm hs
  · rw [if_neg he]
    constructor
    · intro hh
      have hb := (hInv h s).mp hh
      by_cases hs : s = s0
      · exfalso
        rw [hs, hmB] at hb
        exact he (Option.some.inj hb).symm
      · rw [if_neg hs]
        exact hb
    · intro hh
      by_cases hs : s = s0
      · rw [if_pos hs] at hh
        cases hh
      · rw [if_neg hs] at hh
        exact (hInv h s).mpr hh

theorem applyPathOp_preserves (st : Transport) (op : PathOp)
    (hInv : pathMapsInverse st)
    (hok : (match op with
            | .addI s h => addOk st.istream_to_hdl st.hdl_to_istream s h
            | .addO s h => addOk st.ostream_to_peer st.hdl_to_ostream s h
            | .rm _ => true) = true) :
    pathMapsInverse (applyPathOp st op) := by
  obtain ⟨hO, hI⟩ := hInv
  cases op with
  | addI s h =>
    simp only [applyPathOp, add_ipath]
    by_cases h0 : (s == 0) = true
    · simp only [h0, if_true]
      exact ⟨hO, hI⟩
    · simp only [h0, if_false, Bool.false_eq_true]
      by_cases hdup : (lookupA s st.istream_to_hdl).isSome
      · simp [emplaceA, hdup]
        exact ⟨hO, hI⟩
      · have hfresh : lookupA h st.hdl_to_istream = none := by
          simp only [addOk, Bool.or_eq_true] at hok
          rcases hok with (h1 | h2) | h3
          · exact absurd h1 h0
          · exact absurd h2 hdup
          · exact Option.isNone_iff_eq_none.mp h3
        have hsnone : lookupA s st.istream_to_hdl = none :=
          Option.not_isSome_iff_eq_none.mp hdup
        simp only [emplaceA, hsnone, hfresh, Option.isSome_none,
                   Bool.false_eq_true, if_false]
        exact ⟨hO, invA_insert hI hfresh hsnone⟩
  | addO s h =>
    simp only [applyPathOp, add_opath]
    by_cases h0 : (s == 0) = true
    · simp only [h0, if_true]
      exact ⟨hO, hI⟩
    · simp only [h0, if_false, Bool.false_eq_true]
      by_cases hdup : (lookupA s st.ostream_to_peer).isSome
      · simp [emplaceA, hdup]
        exact ⟨hO, hI⟩
      · have hfresh : lookupA h st.hdl_to_ostream = none := by
          simp only [addOk, Bool.or_eq_true] at hok
          rcases hok with (h1 | h2) | h3
          · exact absurd h1 h0
          · exact absurd h2 hdup
          · exact Option.isNone_iff_eq_none.mp h3
        have hsnone : lookupA s st.ostream_to_peer = none :=
          Option.not_isSome_iff_eq_none.mp hdup
        simp only [emplaceA, hsnone, hfresh, Option.isSome_none,
                   Bool.false_eq_true, if_false]
        exact ⟨invA_insert hO hfresh hsnone, hI⟩
  | rm h =>
    simp only [applyPathOp, remove_peer]
    cases ho : lookupA h st.hdl_to_ostream with
    | some s1 =>
      cases hi : lookupA h st.hdl_to_istream with
      | some s2 =>
        simp only [ho, hi]
        exact ⟨invA_erase hO ho, invA_erase hI hi⟩
      | none =>
        simp only [ho, hi]
        exact ⟨invA_erase hO ho, hI⟩
    | none =>
      cases hi : lookupA h st.hdl_to_istream with
      | some s2 =>
        simp only [ho, hi]
        exact ⟨hO, invA_erase hI hi⟩
      | none =>
        simp only [ho, hi]
        exact ⟨hO, hI⟩

/-- C5 (amended): the four path maps remain inverse bijections under any
sequence of `add_opath`, `add_ipath` and `remove_peer` operations in which
every add has an invalid slot, an already-mapped slot, or a handle that is
fresh in that direction. (An add combining a fresh valid slot with an
already-mapped handle inserts only the slot-to-handle entry and breaks the
inverse property; see the counterexample.) -/
theorem path_ops_preserve_inverse (ops : List PathOp) (st : Transport)
    (hInv : pathMapsInverse st) (hok : pathOpsOk st ops = true) :
    pathMapsInverse (applyPathOps ops st) := by
  induction ops generalizing st with
  | nil => simpa [applyPathOps] using hInv
  | cons op rest ih =>
    simp only [pathOpsOk, Bool.and_eq_true] at hok
    have hstep := applyPathOp_preserves st op hInv hok.1
    have : applyPathOps (op :: rest) st = applyPathOps rest (applyPathOp st op) := rfl
    rw [this]
    exact ih (applyPathOp st op) hstep hok.2

/-- Counterexample for C5 as stated: from the empty state, `add_ipath 1 7`
followed by `add_ipath 2 7` (fresh slot, already-mapped handle) leaves
`istream_to_hdl[2] = 7` while `hdl_to_istream[7] = 1`, so the maps are no
longer inverse. -/
theorem path_maps_inverse_cex :
    ¬ pathMapsInverse (applyPathOps [PathOp.addI 1 7, PathOp.addI 2 7] baseSt) := by
  intro h
  have hx : lookupA 2 (applyPathOps [PathOp.addI 1 7, PathOp.addI 2 7] baseSt).istream_to_hdl
      = some 7 := by decide
  have hy := (h.2 7 2).mpr hx
  have hz : lookupA 7 (applyPathOps [PathOp.addI 1 7, PathOp.addI 2 7] baseSt).hdl_to_istream
      = some 1 := by decide
  rw [hz] at hy
  exact absurd hy (by decide)

/-- Mapping the identity reshaping over peer paths changes nothing (the
shape a fan-out flush of an empty buffer leaves behind). -/
theorem peer_paths_eta (ps : List (Slot × PeerPath)) :
    (ps.map fun sp => (sp.1, { sp.2 with cache := sp.2.cache })) = ps := by
  induction ps with
  | nil => rfl
  | cons sp rest ih =>
    obtain ⟨s, pp⟩ := sp
    obtain ⟨a, f, c, e, cr⟩ := pp
    simp [ih]

/-- Witness for C5 (amended): a concrete sequence with a duplicate-slot
add, an invalid-slot add and removals keeps the maps inverse. -/
theorem path_ops_preserve_inverse_witness :
    pathOpsOk baseSt
      [PathOp.addO 1 5, PathOp.addI 2 5, PathOp.addO 1 6, PathOp.addI 0 9,
       PathOp.rm 5, PathOp.rm 8] = true ∧
    pathMapsInverse (applyPathOps
      [PathOp.addO 1 5, PathOp.addI 2 5, PathOp.addO 1 6, PathOp.addI 0 9,
       PathOp.rm 5, PathOp.rm 8] baseSt) := by
  have hInv : pathMapsInverse baseSt := by
    constructor <;> intro h s <;> simp [invA, lookupA, baseSt]
  exact ⟨by decide, path_ops_preserve_inverse _ baseSt hInv (by decide)⟩

-- C3: blocked peer batches.

/-- C3 (amended): a peer batch from a blocked sender is appended whole to
`blocked_msgs[sender]` and nothing is delivered — no events, the worker
and store managers and all tables are untouched — but the check sits
inside the peer-batch branch after the flush / active-sender bracket has
been entered, so the central buffer is still flushed around it. -/
theorem blocked_batch_buffered (p : Hdl) (msgs : List NodeMessage) (st : Transport)
    (hb : st.blocked_peers.contains p = true) :
    BlockedPeerBatchProp p msgs st := by
  unfold BlockedPeerBatchProp handle_batch handleBatchBody
  simp only [hb, if_true]
  repeat' apply And.intro
  all_goals try trivial
  · cases hm : lookupA p st.blocked_msgs <;> simp [hm, lookupA]
  · intro q hq
    have hqp : (q == p) = false := by simpa using hq
    cases hm : lookupA p st.blocked_msgs <;>
      simp [hm, lookupA, hqp, lookupA_eraseA, hq]
  · simp [PeerMgr.fanOutFlush, peer_paths_eta]

/-- Witness for C3 (amended) at a blocked sender with a buffered outbound
message. -/
theorem blocked_batch_buffered_witness :
    stC3.blocked_peers.contains 3 = true ∧ BlockedPeerBatchProp 3 [exMsg5] stC3 :=
  ⟨rfl, blocked_batch_buffered 3 [exMsg5] stC3 rfl⟩

/-- Counterexample for C3 as stated: with sender 3 blocked, the peer-batch
call still flushes the central buffer (so the blocked check is not
performed before the flush / active-sender protocol), and a worker batch
from the blocked sender is not buffered at all but republished to the peer
manager. -/
theorem blocked_check_not_first_cex :
    (handle_batch 3 (Batch.peer [exMsg5]) stC3).1.peerMgr.buf = [] ∧
    stC3.peerMgr.buf = [exMsg5] ∧
    (handle_batch 3 (Batch.worker [exDM]) stC3).1.blocked_msgs = [] ∧
    (handle_batch 3 (Batch.worker [exDM]) stC3).2
      = [Event.peerPush { content := .dataMsg exDM, ttl := 20 } (some 3)] :=
  ⟨rfl, rfl, rfl, rfl⟩

-- C2 / C4: events and local delivery of the peer-batch loop.

theorem forwardTail_events (st1 : Transport) (evs : List Event)
    (c : NodeMessageContent) (ttl : Nat) (e : Event)
    (he : e ∈ (if !st1.optForward then (st1, evs)
        else if srcEndsWith (topicOf c) cloneSuffix then (st1, evs)
        else if (ttl + 65535) % 65536 == 0 then (st1, evs ++ [Event.warnExpiredTTL])
        else ((push_node { content := c, ttl := (ttl + 65535) % 65536 } st1).1,
              evs ++ (push_node { content := c, ttl := (ttl + 65535) % 65536 } st1).2)).2) :
    e ∈ evs ∨ e = Event.warnExpiredTTL ∨
      (srcEndsWith (topicOf c) cloneSuffix = false ∧ (ttl + 65535) % 65536 ≠ 0 ∧
       ∃ as2, e = Event.peerPush { content := c, ttl := (ttl + 65535) % 65536 } as2) := by
  cases hf2 : st1.optForward with
  | false =>
    simp only [hf2, Bool.not_false, if_true] at he
    exact Or.inl he
  | true =>
    simp only [hf2, Bool.not_true, Bool.false_eq_true, if_false] at he
    cases hcl : srcEndsWith (topicOf c) cloneSuffix with
    | true =>
      simp only [hcl, if_true] at he
      exact Or.inl he
    | false =>
      simp only [hcl, Bool.false_eq_true, if_false] at he
      cases ht : (ttl + 65535) % 65536 == 0 with
      | true =>
        simp only [ht, if_true] at he
        rcases List.mem_append.mp he with h | h
        · exact Or.inl h
        · exact Or.inr (Or.inl (List.mem_singleton.mp h))
      | false =>
        simp only [ht, Bool.false_eq_true, if_false, push_node, remote_push] at he
        rcases List.mem_append.mp he with h | h
        · exact Or.inl h
        · exact Or.inr (Or.inr ⟨rfl, beq_eq_false_iff_ne.mp ht,
            st1.peerMgr.activeSender, List.mem_singleton.mp h⟩)

set_option maxRecDepth 4000 in
theorem processPeerMsg_events (numW numS : Nat) (st : Transport) (evs : List Event)
    (msg : NodeMessage) (e : Event)
    (he : e ∈ (processPeerMsg numW numS (st, evs) msg).2) :
    e ∈ evs ∨ e = Event.warnExpiredTTL ∨
      (srcEndsWith (topicOf msg.content) cloneSuffix = false ∧
       (msg.ttl + 65535) % 65536 ≠ 0 ∧
       ∃ as2, e = Event.peerPush
         { content := msg.content, ttl := (msg.ttl + 65535) % 65536 } as2) := by
  obtain ⟨c, ttl⟩ := msg
  cases c with
  | dataMsg dm =>
    by_cases hw : numW > 0
    · simp only [processPeerMsg, hw, if_true] at he
      have key := forwardTail_events { st with workerMgr := st.workerMgr.push dm }
        evs (.dataMsg dm) ttl e
      exact key he
    · simp only [processPeerMsg, hw, if_false] at he
      exact forwardTail_events _ _ _ _ _ he
  | commandMsg cm =>
    by_cases hs : numS > 0
    · simp only [processPeerMsg, hs, if_true] at he
      have key := forwardTail_events { st with storeMgr := st.storeMgr.push cm }
        evs (.commandMsg cm) ttl e
      exact key he
    · simp only [processPeerMsg, hs, if_false] at he
      exact forwardTail_events _ _ _ _ _ he

theorem batch_push_events (numW numS : Nat) :
    ∀ (msgs : List NodeMessage) (st : Transport) (evs : List Event) (e : Event),
      e ∈ (msgs.foldl (processPeerMsg numW numS) (st, evs)).2 →
      e ∈ evs ∨ e = Event.warnExpiredTTL ∨
        ∃ m ∈ msgs, srcEndsWith (topicOf m.content) cloneSuffix = false ∧
          (m.ttl + 65535) % 65536 ≠ 0 ∧
          ∃ as2, e = Event.peerPush
            { content := m.content, ttl := (m.ttl + 65535) % 65536 } as2 := by
  intro msgs
  induction msgs with
  | nil =>
    intro st evs e he
    exact Or.inl he
  | cons m rest ih =>
    intro st evs e he
    rcases ih (processPeerMsg numW numS (st, evs) m).1
        (processPeerMsg numW numS (st, evs) m).2 e he with h | h | ⟨m2, hm2, hp⟩
    · rcases processPeerMsg_events numW numS st evs m e h with h2 | h2 | h2
      · exact Or.inl h2
      · exact Or.inr (Or.inl h2)
      · exact Or.inr (Or.inr ⟨m, List.mem_cons_self m rest, h2⟩)
    · exact Or.inr (Or.inl h)
    · exact Or.inr (Or.inr ⟨m2, List.mem_cons_of_mem m hm2, hp⟩)

theorem processPeerMsg_local (numW numS : Nat) (st : Transport) (evs : List Event)
    (msg : NodeMessage) :
    (processPeerMsg numW numS (st, evs) msg).1.workerMgr
      = (match msg.content with
         | .dataMsg dm => if numW > 0 then st.workerMgr.push dm else st.workerMgr
         | .commandMsg _ => st.workerMgr) ∧
    (processPeerMsg numW numS (st, evs) msg).1.storeMgr
      = (match msg.content with
         | .dataMsg _ => st.storeMgr
         | .commandMsg cm => if numS > 0 then st.storeMgr.push cm else st.storeMgr) := by
  obtain ⟨c, ttl⟩ := msg
  cases c with
  | dataMsg dm =>
    by_cases hw : numW > 0 <;>
      cases hf2 : st.optForward <;>
        cases hcl : srcEndsWith dm.1 cloneSuffix <;>
          cases ht : (ttl + 65535) % 65536 == 0 <;>
            simp [processPeerMsg, topicOf, push_node, remote_push, hw, hf2, hcl, ht]
  | commandMsg cm =>
    by_cases hs : numS > 0 <;>
      cases hf2 : st.optForward <;>
        cases hcl : srcEndsWith cm.1 cloneSuffix <;>
          cases ht : (ttl + 65535) % 65536 == 0 <;>
            simp [processPeerMsg, topicOf, push_node, remote_push, hs, hf2, hcl, ht]

theorem local_delivery_fold (numW numS : Nat) :
    ∀ (msgs : List NodeMessage) (st : Transport) (evs : List Event),
      (msgs.foldl (processPeerMsg numW numS) (st, evs)).1.workerMgr.buf
        = st.workerMgr.buf ++ (if numW > 0 then msgs.filterMap dataContentOf else []) ∧
      (msgs.foldl (processPeerMsg numW numS) (st, evs)).1.workerMgr.paths
        = st.workerMgr.paths ∧
      (msgs.foldl (processPeerMsg numW numS) (st, evs)).1.storeMgr.buf
        = st.storeMgr.buf ++ (if numS > 0 then msgs.filterMap cmdContentOf else []) ∧
      (msgs.foldl (processPeerMsg numW numS) (st, evs)).1.storeMgr.paths
        = st.storeMgr.paths := by
  intro msgs
  induction msgs with
  | nil =>
    intro st evs
    refine ⟨?_, rfl, ?_, rfl⟩ <;> simp
  | cons m rest ih =>
    intro st evs
    obtain ⟨hw1, hs1⟩ := processPeerMsg_local numW numS st evs m
    obtain ⟨g1, g2, g3, g4⟩ := ih (processPeerMsg numW numS (st, evs) m).1
      (processPeerMsg numW numS (st, evs) m).2
    refine ⟨?_, ?_, ?_, ?_⟩
    · have t1 : ((m :: rest).foldl (processPeerMsg numW numS) (st, evs)).1.workerMgr.buf
          = (processPeerMsg numW numS (st, evs) m).1.workerMgr.buf
            ++ (if numW > 0 then rest.filterMap dataContentOf else []) := g1
      rw [t1, hw1]
      cases hcont : m.content with
      | dataMsg dm =>
        by_cases hw : numW > 0
        · simp [hw, LocalMgr.push, List.filterMap_cons, dataContentOf, hcont]
        · simp [hw, List.filterMap_cons, dataContentOf, hcont]
      | commandMsg cm =>
        simp [List.filterMap_cons, dataContentOf, hcont]
    · have t2 : ((m :: rest).foldl (processPeerMsg numW numS) (st, evs)).1.workerMgr.paths
          = (processPeerMsg numW numS (st, evs) m).1.workerMgr.paths := g2
      rw [t2, hw1]
      cases hcont : m.content with
      | dataMsg dm =>
        by_cases hw : numW > 0 <;> simp [hw, LocalMgr.push]
      | commandMsg cm => rfl
    · have t3 : ((m :: rest).foldl (processPeerMsg numW numS) (st, evs)).1.storeMgr.buf
          = (processPeerMsg numW numS (st, evs) m).1.storeMgr.buf
            ++ (if numS > 0 then rest.filterMap cmdContentOf else []) := g3
      rw [t3, hs1]
      cases hcont : m.content with
      | dataMsg dm =>
        simp [List.filterMap_cons, cmdContentOf, hcont]
      | commandMsg cm =>
        by_cases hs : numS > 0
        · simp [hs, LocalMgr.push, List.filterMap_cons, cmdContentOf, hcont]
        · simp [hs, List.filterMap_cons, cmdContentOf, hcont]
    · have t4 : ((m :: rest).foldl (processPeerMsg numW numS) (st, evs)).1.storeMgr.paths
          = (processPeerMsg numW numS (st, evs) m).1.storeMgr.paths := g4
      rw [t4, hs1]
      cases hcont : m.content with
      | dataMsg dm => rfl
      | commandMsg cm =>
        by_cases hs : numS > 0 <;> simp [hs, LocalMgr.push]

-- C2: TTL decrement.

/-- C2 (amended): for a node message reaching the forwarding step, the TTL
is decremented once modulo `2 ^ 16`; arrival TTL 1 becomes 0 and the
message is dropped with a warning, never pushed to the peer manager;
arrival TTL in `[2, 65535]` is pushed exactly once with a strictly smaller
TTL; arrival TTL 0 wraps around and is pushed with TTL 65535. At batch
level, every push during `handle_batch` of a peer batch carries some batch
message with its TTL decremented exactly once to a nonzero value. -/
theorem ttl_forwarding :
    (∀ (numW numS : Nat) (st : Transport) (evs : List Event) (msg : NodeMessage),
      st.optForward = true →
      srcEndsWith (topicOf msg.content) cloneSuffix = false →
      TtlForwardProp numW numS st evs msg) ∧
    ∀ (p : Hdl) (msgs : List NodeMessage) (st : Transport),
      TtlBatchProp p msgs st := by
  constructor
  · intro numW numS st evs msg hf hc
    obtain ⟨c, ttl⟩ := msg
    unfold TtlForwardProp
    cases c with
    | dataMsg dm =>
      by_cases hw : numW > 0 <;>
      · simp only [processPeerMsg, hw, if_true, if_false, hf, hc, Bool.not_true,
                   Bool.false_eq_true]
        refine ⟨?_, ?_, ?_⟩
        · intro h1
          subst h1
          norm_num
        · intro h2 h3
          have ht : (ttl + 65535) % 65536 = ttl - 1 := by omega
          have ht2 : ((ttl - 1) == 0) = false := by
            simp only [beq_eq_false_iff_ne, ne_eq]
            omega
          simp only [ht, ht2, Bool.false_eq_true, if_false, push_node, remote_push]
          exact ⟨by trivial, by omega⟩
        · intro h0
          subst h0
          norm_num [push_node, remote_push]
    | commandMsg cm =>
      by_cases hs : numS > 0 <;>
      · simp only [processPeerMsg, hs, if_true, if_false, hf, hc, Bool.not_true,
                   Bool.false_eq_true]
        refine ⟨?_, ?_, ?_⟩
        · intro h1
          subst h1
          norm_num
        · intro h2 h3
          have ht : (ttl + 65535) % 65536 = ttl - 1 := by omega
          have ht2 : ((ttl - 1) == 0) = false := by
            simp only [beq_eq_false_iff_ne, ne_eq]
            omega
          simp only [ht, ht2, Bool.false_eq_true, if_false, push_node, remote_push]
          exact ⟨by trivial, by omega⟩
        · intro h0
          subst h0
          norm_num [push_node, remote_push]
  · intro p msgs st
    unfold TtlBatchProp handle_batch handleBatchBody
    cases hb : st.blocked_peers.contains p with
    | true =>
      simp only [hb, if_true]
      intro e he
      exact absurd he (List.not_mem_nil _)
    | false =>
      simp only [hb, Bool.false_eq_true, if_false]
      intro e he
      rcases batch_push_events st.workerMgr.paths.length st.storeMgr.paths.length
          msgs _ [] e he with h | h | h
      · exact absurd h (List.not_mem_nil _)
      · exact Or.inl h
      · exact Or.inr h

/-- Witness for C2 (amended): the per-message part at a TTL-5 message on a
non-clone topic and the batch-level part at a singleton batch. -/
theorem ttl_forwarding_witness :
    stC2.optForward = true ∧
    srcEndsWith (topicOf exMsg5.content) cloneSuffix = false ∧
    TtlForwardProp 0 0 stC2 [] exMsg5 ∧ TtlBatchProp 3 [exMsg5] stC2 :=
  ⟨rfl, rfl, ttl_forwarding.1 0 0 stC2 [] exMsg5 rfl rfl,
   ttl_forwarding.2 3 [exMsg5] stC2⟩

/-- Counterexample for C2 as stated: a node message arriving with TTL 0 is
not dropped; `--msg.ttl` wraps the 16-bit counter and the message is pushed
to the peer manager with TTL 65535. -/
theorem ttl_zero_forwarded_cex :
    exMsg0.ttl = 0 ∧
    (handle_batch 3 (Batch.peer [exMsg0]) stC2).2
      = [Event.peerPush { content := NodeMessageContent.dataMsg exDM, ttl := 65535 }
           (some 3)] :=
  ⟨rfl, rfl⟩

-- C4: clone-suffix messages are delivered locally and never forwarded.

/-- C4: for every message of an inbound peer batch — mixed batches
included — the data content lands in the worker manager and the command
content in the store manager exactly when that manager had at least one
path at batch start, and a message whose topic string ends with the clone
suffix is never pushed to the peer manager, independently of the forward
option and of its TTL. -/
theorem clone_batch_local_only (p : Hdl) (msgs : List NodeMessage) (st : Transport)
    (hnb : st.blocked_peers.contains p = false) :
    ClonePeerBatchProp p msgs st := by
  have hkey :
      (handle_batch p (Batch.peer msgs) st).1.workerMgr.buf
        = st.workerMgr.buf ++
          (if st.workerMgr.paths.length > 0 then msgs.filterMap dataContentOf else []) ∧
      (handle_batch p (Batch.peer msgs) st).1.workerMgr.paths = st.workerMgr.paths ∧
      (handle_batch p (Batch.peer msgs) st).1.storeMgr.buf
        = st.storeMgr.buf ++
          (if st.storeMgr.paths.length > 0 then msgs.filterMap cmdContentOf else []) ∧
      (handle_batch p (Batch.peer msgs) st).1.storeMgr.paths = st.storeMgr.paths := by
    unfold handle_batch handleBatchBody
    simp only [hnb, Bool.false_eq_true, if_false]
    exact local_delivery_fold st.workerMgr.paths.length st.storeMgr.paths.length
      msgs _ []
  have hev : ∀ e ∈ (handle_batch p (Batch.peer msgs) st).2,
      e = Event.warnExpiredTTL ∨
      ∃ m ∈ msgs, srcEndsWith (topicOf m.content) cloneSuffix = false ∧
        (m.ttl + 65535) % 65536 ≠ 0 ∧
        ∃ as2, e = Event.peerPush
          { content := m.content, ttl := (m.ttl + 65535) % 65536 } as2 := by
    unfold handle_batch handleBatchBody
    simp only [hnb, Bool.false_eq_true, if_false]
    intro e he
    rcases batch_push_events st.workerMgr.paths.length st.storeMgr.paths.length
        msgs _ [] e he with h | h | h
    · exact absurd h (List.not_mem_nil _)
    · exact Or.inl h
    · exact Or.inr h
  obtain ⟨hw2, hwp, hs2, hsp⟩ := hkey
  unfold ClonePeerBatchProp
  refine ⟨hw2, hwp, hs2, hsp, ?_, ?_, ?_⟩
  · intro m hm dm hcont hnw
    rw [hw2]
    apply List.mem_append_right
    rw [if_pos hnw]
    exact List.mem_filterMap.mpr ⟨m, hm, by simp [dataContentOf, hcont]⟩
  · intro m hm cm hcont hns
    rw [hs2]
    apply List.mem_append_right
    rw [if_pos hns]
    exact List.mem_filterMap.mpr ⟨m, hm, by simp [cmdContentOf, hcont]⟩
  · intro m hm hclone e he t2 as2 heq
    rcases hev e he with h | ⟨m2, hm2, hcl2, hne2, as3, heq2⟩
    · rw [heq] at h
      simp at h
    · have h3 : Event.peerPush { content := m.content, ttl := t2 } as2
          = Event.peerPush
              { content := m2.content, ttl := (m2.ttl + 65535) % 65536 } as3 :=
        heq.symm.trans heq2
      have h4 := congrArg NodeMessage.content (Event.peerPush.inj h3).1
      rw [h4] at hclone
      rw [hcl2] at hclone
      exact Bool.noConfusion hclone

-- C7: `remove_peer`.

/-- C7: `remove_peer` returns `false` with no state change and no callback
when the peer has neither path; otherwise it erases every present half from
both of its maps (leaving other peers untouched), invokes `peer_removed`
exactly when graceful and `peer_disconnected` with the reason otherwise,
evicts the cache entry, returns `true`, and quits exactly when the endpoint
is shutting down with no outbound path left, waking the pipeline
otherwise. -/
theorem remove_peer_spec (hdl : Hdl) (reason : Option Nat) (silent graceful : Bool)
    (st : Transport) (hInv : pathMapsInverse st) :
    RemovePeerProp hdl reason silent graceful st := by
  obtain ⟨hO, hI⟩ := hInv
  unfold RemovePeerProp
  cases ho : lookupA hdl st.hdl_to_ostream with
  | none =>
    cases hi : lookupA hdl st.hdl_to_istream with
    | none =>
      constructor
      · intro _
        simp [remove_peer, ho, hi]
      · intro hc
        exfalso
        rw [connected_to, ho, hi] at hc
        simp at hc
    | some s2 =>
      have hr : remove_peer hdl reason silent graceful st
          = (true,
             { st with istream_to_hdl := eraseA s2 st.istream_to_hdl,
                       hdl_to_istream := eraseA hdl st.hdl_to_istream },
             [Event.removeInPath s2 reason silent]
               ++ (if graceful then [Event.peerRemoved hdl]
                   else [Event.peerDisconnected hdl reason])
               ++ [Event.cacheRemove hdl]
               ++ (if st.shutting_down && st.hdl_to_ostream.isEmpty
                   then [Event.quit] else [Event.wakePush])) := by
        simp [remove_peer, ho, hi]
      constructor
      · intro hc
        exfalso
        rw [connected_to, ho, hi] at hc
        simp at hc
      · intro _
        rw [hr]
        refine ⟨rfl, ho, ?_, ?_, ?_, ?_, ?_, ?_, ?_, ?_, ?_⟩
        · simp [lookupA_eraseA]
        · intro s hx
          have h2 := (hO hdl s).mpr hx
          rw [ho] at h2
          cases h2
        · intro s
          rw [lookupA_eraseA]
          by_cases hs : s = s2
          · simp [hs]
          · rw [if_neg hs]
            intro hx
            have h2 := (hI hdl s).mpr hx
            rw [hi] at h2
            exact hs (Option.some.inj h2).symm
        · intro h2 hne
          exact ⟨rfl, by rw [lookupA_eraseA, if_neg hne]⟩
        · intro hg
          subst hg
          refine ⟨by simp, ?_⟩
          intro rr
          cases hcnd : (st.shutting_down && st.hdl_to_ostream.isEmpty) <;>
            simp [hcnd]
        · intro hg
          subst hg
          refine ⟨by simp, ?_⟩
          cases hcnd : (st.shutting_down && st.hdl_to_ostream.isEmpty) <;>
            simp [hcnd]
        · simp
        · intro h12
          have hcc : (st.shutting_down && st.hdl_to_ostream.isEmpty) = true := by
            rw [h12.1, h12.2]
            rfl
          constructor
          · simp [hcc]
          · cases graceful <;> simp [hcc]
        · intro h12
          have hcc : (st.shutting_down && st.hdl_to_ostream.isEmpty) = false := by
            rcases h12 with h1 | h1 <;> simp [h1]
          constructor
          · simp [hcc]
          · cases graceful <;> simp [hcc]
  | some s1 =>
    cases hi : lookupA hdl st.hdl_to_istream with
    | none =>
      have hr : remove_peer hdl reason silent graceful st
          = (true,
             { st with peerMgr := st.peerMgr.removePath s1,
                       ostream_to_peer := eraseA s1 st.ostream_to_peer,
                       hdl_to_ostream := eraseA hdl st.hdl_to_ostream },
             [Event.removeOutPath s1 reason silent]
               ++ (if graceful then [Event.peerRemoved hdl]
                   else [Event.peerDisconnected hdl reason])
               ++ [Event.cacheRemove hdl]
               ++ (if st.shutting_down && (eraseA hdl st.hdl_to_ostream).isEmpty
                   then [Event.quit] else [Event.wakePush])) := by
        simp [remove_peer, ho, hi]
      constructor
      · intro hc
        exfalso
        rw [connected_to, ho, hi] at hc
        simp at hc
      · intro _
        rw [hr]
        refine ⟨rfl, ?_, hi, ?_, ?_, ?_, ?_, ?_, ?_, ?_, ?_⟩
        · simp [lookupA_eraseA]
        · intro s
          rw [lookupA_eraseA]
          by_cases hs : s = s1
          · simp [hs]
          · rw [if_neg hs]
            intro hx
            have h2 := (hO hdl s).mpr hx
            rw [ho] at h2
            exact hs (Option.some.inj h2).symm
        · intro s hx
          have h2 := (hI hdl s).mpr hx
          rw [hi] at h2
          cases h2
        · intro h2 hne
          exact ⟨by rw [lookupA_eraseA, if_neg hne], rfl⟩
        · intro hg
          subst hg
          refine ⟨by simp, ?_⟩
          intro rr
          cases hcnd : (st.shutting_down && (eraseA hdl st.hdl_to_ostream).isEmpty) <;>
            simp [hcnd]
        · intro hg
          subst hg
          refine ⟨by simp, ?_⟩
          cases hcnd : (st.shutting_down && (eraseA hdl st.hdl_to_ostream).isEmpty) <;>
            simp [hcnd]
        · simp
        · intro h12
          have hcc : (st.shutting_down && (eraseA hdl st.hdl_to_ostream).isEmpty)
              = true := by
            rw [h12.1, h12.2]
            rfl
          constructor
          · simp [hcc]
          · cases graceful <;> simp [hcc]
        · intro h12
          have hcc : (st.shutting_down && (eraseA hdl st.hdl_to_ostream).isEmpty)
              = false := by
            rcases h12 with h1 | h1 <;> simp [h1]
          constructor
          · simp [hcc]
          · cases graceful <;> simp [hcc]
    | some s2 =>
      have hr : remove_peer hdl reason silent graceful st
          = (true,
             { st with peerMgr := st.peerMgr.removePath s1,
                       ostream_to_peer := eraseA s1 st.ostream_to_peer,
                       hdl_to_ostream := eraseA hdl st.hdl_to_ostream,
                       istream_to_hdl := eraseA s2 st.istream_to_hdl,
                       hdl_to_istream := eraseA hdl st.hdl_to_istream },
             [Event.removeOutPath s1 reason silent,
              Event.removeInPath s2 reason silent]
               ++ (if graceful then [Event.peerRemoved hdl]
                   else [Event.peerDisconnected hdl reason])
               ++ [Event.cacheRemove hdl]
               ++ (if st.shutting_down && (eraseA hdl st.hdl_to_ostream).isEmpty
                   then [Event.quit] else [Event.wakePush])) := by
        simp [remove_peer, ho, hi]
      constructor
      · intro hc
        exfalso
        rw [connected_to, ho, hi] at hc
        simp at hc
      · intro _
        rw [hr]
        refine ⟨rfl, ?_, ?_, ?_, ?_, ?_, ?_, ?_, ?_, ?_, ?_⟩
        · simp [lookupA_eraseA]
        · simp [lookupA_eraseA]
        · intro s
          rw [lookupA_eraseA]
          by_cases hs : s = s1
          · simp [hs]
          · rw [if_neg hs]
            intro hx
            have h2 := (hO hdl s).mpr hx
            rw [ho] at h2
            exact hs (Option.some.inj h2).symm
        · intro s
          rw [lookupA_eraseA]
          by_cases hs : s = s2
          · simp [hs]
          · rw [if_neg hs]
            intro hx
            have h2 := (hI hdl s).mpr hx
            rw [hi] at h2
            exact hs (Option.some.inj h2).symm
        · intro h2 hne
          exact ⟨by rw [lookupA_eraseA, if_neg hne],
                 by rw [lookupA_eraseA, if_neg hne]⟩
        · intro hg
          subst hg
          refine ⟨by simp, ?_⟩
          intro rr
          cases hcnd : (st.shutting_down && (eraseA hdl st.hdl_to_ostream).isEmpty) <;>
            simp [hcnd]
        · intro hg
          subst hg
          refine ⟨by simp, ?_⟩
          cases hcnd : (st.shutting_down && (eraseA hdl st.hdl_to_ostream).isEmpty) <;>
            simp [hcnd]
        · simp
        · intro h12
          have hcc : (st.shutting_down && (eraseA hdl st.hdl_to_ostream).isEmpty)
              = true := by
            rw [h12.1, h12.2]
            rfl
          constructor
          · simp [hcc]
          · cases graceful <;> simp [hcc]
        · intro h12
          have hcc : (st.shutting_down && (eraseA hdl st.hdl_to_ostream).isEmpty)
              = false := by
            rcases h12 with h1 | h1 <;> simp [h1]
          constructor
          · simp [hcc]
          · cases graceful <;> simp [hcc]

/-- Witness for C7 at a fully peered handle. -/
theorem remove_peer_spec_witness :
    pathMapsInverse stC7 ∧ RemovePeerProp 5 none true false stC7 := by
  have hInv : pathMapsInverse stC7 := by
    constructor
    · intro h s
      constructor
      · intro hh
        by_cases h5 : h = 5
        · subst h5
          simp [lookupA, stC7, baseSt] at hh
          subst hh
          simp [lookupA, stC7, baseSt]
        · simp [lookupA, stC7, baseSt, h5] at hh
      · intro hh
        by_cases s4 : s = 4
        · subst s4
          simp [lookupA, stC7, baseSt] at hh
          subst hh
          simp [lookupA, stC7, baseSt]
        · simp [lookupA, stC7, baseSt, s4] at hh
    · intro h s
      constructor
      · intro hh
        by_cases h5 : h = 5
        · subst h5
          simp [lookupA, stC7, baseSt] at hh
          subst hh
          simp [lookupA, stC7, baseSt]
        · simp [lookupA, stC7, baseSt, h5] at hh
      · intro hh
        by_cases s2 : s = 2
        · subst s2
          simp [lookupA, stC7, baseSt] at hh
          subst hh
          simp [lookupA, stC7, baseSt]
        · simp [lookupA, stC7, baseSt, s2] at hh
  exact ⟨hInv, remove_peer_spec 5 none true false stC7 hInv⟩

-- C8: `unblock_peer`.

theorem processPeerMsg_blocked_peers (numW numS : Nat) (acc : Transport × List Event)
    (msg : NodeMessage) :
    (processPeerMsg numW numS acc msg).1.blocked_peers = acc.1.blocked_peers := by
  obtain ⟨st, evs⟩ := acc
  obtain ⟨c, ttl⟩ := msg
  cases c with
  | dataMsg dm =>
    by_cases hw : numW > 0 <;>
      cases hf2 : st.optForward <;>
        cases hcl : srcEndsWith dm.1 cloneSuffix <;>
          cases ht : (ttl + 65535) % 65536 == 0 <;>
            simp [processPeerMsg, topicOf, push_node, remote_push, hw, hf2, hcl, ht]
  | commandMsg cm =>
    by_cases hs : numS > 0 <;>
      cases hf2 : st.optForward <;>
        cases hcl : srcEndsWith cm.1 cloneSuffix <;>
          cases ht : (ttl + 65535) % 65536 == 0 <;>
            simp [processPeerMsg, topicOf, push_node, remote_push, hs, hf2, hcl, ht]

theorem foldl_blocked_peers {γ : Type}
    (f : Transport × List Event → γ → Transport × List Event)
    (hf : ∀ acc x, (f acc x).1.blocked_peers = acc.1.blocked_peers)
    (xs : List γ) (acc : Transport × List Event) :
    (xs.foldl f acc).1.blocked_peers = acc.1.blocked_peers := by
  induction xs generalizing acc with
  | nil => rfl
  | cons x rest ih => rw [List.foldl_cons, ih, hf]

theorem handle_batch_blocked_peers (hdl : Hdl) (xs : Batch) (st : Transport) :
    (handle_batch hdl xs st).1.blocked_peers = st.blocked_peers := by
  unfold handle_batch handleBatchBody
  cases xs with
  | peer msgs =>
    cases hb : st.blocked_peers.contains hdl with
    | true =>
      simp only [hb]
      rfl
    | false =>
      simp only [hb, Bool.false_eq_true, if_false]
      exact foldl_blocked_peers
        (processPeerMsg st.workerMgr.paths.length st.storeMgr.paths.length)
        (fun acc m => processPeerMsg_blocked_peers _ _ acc m) msgs _
  | worker es =>
    exact foldl_blocked_peers
      (fun acc e => let r := push_data e acc.1; (r.1, acc.2 ++ r.2))
      (fun acc e => rfl) es _
  | store es =>
    exact foldl_blocked_peers
      (fun acc e => let r := push_command e acc.1; (r.1, acc.2 ++ r.2))
      (fun acc e => rfl) es _
  | var cs =>
    exact foldl_blocked_peers
      (fun acc c => let r := publish_content c acc.1; (r.1, acc.2 ++ r.2))
      (fun acc c => by cases c <;> rfl) cs _
  | other => rfl

theorem filter_ne_self (l : List Hdl) (p : Hdl) (h : l.contains p = false) :
    l.filter (fun q => q != p) = l := by
  induction l with
  | nil => rfl
  | cons a rest ih =>
    have h2 : ((p == a) || rest.contains p) = false := h
    rw [Bool.or_eq_false_iff] at h2
    have ha : (a != p) = true := by
      have h3 : (a == p) = false := by
        have h4 := beq_eq_false_iff_ne.mp h2.1
        exact beq_eq_false_iff_ne.mpr (Ne.symm h4)
      simp [bne, h3]
    rw [List.filter_cons, if_pos ha, ih h2.2]

/-- C8: `unblock_peer` removes the peer from the blocked set (a no-op on
the set when it was never blocked); with no buffered batches it does
nothing else; with buffered batches it replays them in FIFO order through
`handle_batch` and erases the buffer when an inbound path still exists,
and discards them unprocessed when it does not. -/
theorem unblock_peer_spec (p : Hdl) (st : Transport) : UnblockPeerProp p st := by
  unfold UnblockPeerProp unblock_peer
  cases hm : lookupA p st.blocked_msgs with
  | none =>
    simp only [hm]
    refine ⟨?_, ?_, ?_, ?_⟩
    · first | trivial | rfl
    · intro hnc
      exact filter_ne_self st.blocked_peers p hnc
    · first | trivial | (intro _; rfl)
    · intro batches hbat
      cases hbat
  | some batches0 =>
    cases hi : lookupA p st.hdl_to_istream with
    | none =>
      simp only [hm, hi]
      refine ⟨?_, ?_, ?_, ?_⟩
      · first | trivial | rfl
      · intro hnc
        exact filter_ne_self st.blocked_peers p hnc
      · intro hcontra
        cases hcontra
      · intro batches hbat
        obtain rfl : batches0 = batches := Option.some.inj hbat
        refine ⟨?_, ?_⟩
        · first | trivial | (intro _; rfl)
        · intro hne
          exact absurd rfl hne
    | some slot =>
      simp only [hm, hi]
      refine ⟨?_, ?_, ?_, ?_⟩
      · exact foldl_blocked_peers
          (fun acc b => let r2 := handle_batch p b acc.1; (r2.1, acc.2 ++ r2.2))
          (fun acc b => handle_batch_blocked_peers p b acc.1) batches0 _
      · intro hnc
        exact (foldl_blocked_peers
          (fun acc b => let r2 := handle_batch p b acc.1; (r2.1, acc.2 ++ r2.2))
          (fun acc b => handle_batch_blocked_peers p b acc.1) batches0 _).trans
          (filter_ne_self st.blocked_peers p hnc)
      · intro hcontra
        cases hcontra
      · intro batches hbat
        obtain rfl : batches0 = batches := Option.some.inj hbat
        refine ⟨?_, ?_⟩
        · intro hcontra
          cases hcontra
        · first | (intro _; trivial) | (intro _; rfl)

/-- Witness for C8 at a blocked peer with one buffered batch and a live
inbound path (fires the FIFO replay case). -/
theorem unblock_peer_spec_witness :
    lookupA 3 stC8.blocked_msgs = some [Batch.peer [exMsg5]] ∧
    UnblockPeerProp 3 stC8 :=
  ⟨rfl, unblock_peer_spec 3 stC8⟩

-- C1: invariant I-FAN, exclusion of the inbound sender during fan-out.

theorem peerAccepts_self (a : Addr) (fil : Filter) (m : NodeMessage) :
    peerAccepts (some a) a fil m = false := by
  simp [peerAccepts]

theorem creditEmit_fields (pp : PeerPath) :
    pp.creditEmit.delivered = pp.delivered ∧ pp.creditEmit.addr = pp.addr ∧
    pp.creditEmit.fil = pp.fil := by
  refine ⟨?_, rfl, rfl⟩
  simp [PeerPath.creditEmit, PeerPath.delivered, List.append_assoc,
        List.take_append_drop]

theorem fanOutFlush_path (as : Option Addr) (buf : List NodeMessage)
    (ps : List (Slot × PeerPath)) (i : Nat) (s : Slot) (pp : PeerPath)
    (hip : ps[i]? = some (s, pp)) :
    (PeerMgr.mk as buf ps).fanOutFlush.paths[i]?
      = some (s, { pp with
                   cache := pp.cache
                     ++ buf.filter (peerAccepts as pp.addr pp.fil) }) := by
  simp only [PeerMgr.fanOutFlush]
  rw [List.getElem?_map, hip]
  rfl

theorem fanOutFlush_empty_path (m : PeerMgr) (hb : m.buf = []) (i : Nat)
    (s : Slot) (pp : PeerPath) (hip : m.paths[i]? = some (s, pp)) :
    ∃ pp2, m.fanOutFlush.paths[i]? = some (s, pp2) ∧ pp2.addr = pp.addr ∧
      pp2.fil = pp.fil ∧ pp2.delivered = pp.delivered := by
  refine ⟨_, fanOutFlush_path m.activeSender m.buf m.paths i s pp hip, rfl, rfl, ?_⟩
  rw [hb]
  simp [PeerPath.delivered]

theorem emitBatches_path (as : Option Addr) (buf : List NodeMessage)
    (ps : List (Slot × PeerPath)) (i : Nat) (s : Slot) (pp : PeerPath)
    (hip : ps[i]? = some (s, pp)) :
    ∃ pp2, (PeerMgr.mk as buf ps).emitBatches.paths[i]? = some (s, pp2) ∧
      pp2.addr = pp.addr ∧ pp2.fil = pp.fil ∧
      pp2.delivered = pp.delivered ++ buf.filter (peerAccepts as pp.addr pp.fil) := by
  have h1 := fanOutFlush_path as buf ps i s pp hip
  refine ⟨({ pp with
             cache := pp.cache
               ++ buf.filter (peerAccepts as pp.addr pp.fil) } : PeerPath).creditEmit,
    ?_, ?_, ?_, ?_⟩
  · simp only [PeerMgr.emitBatches]
    rw [List.getElem?_map, h1]
    rfl
  · exact (creditEmit_fields _).2.1
  · exact (creditEmit_fields _).2.2
  · rw [(creditEmit_fields _).1]
    simp [PeerPath.delivered, List.append_assoc]

theorem remote_push_excluded (msg : NodeMessage) (st : Transport) (a : Addr)
    (hAS : st.peerMgr.activeSender = some a) (hbuf : st.peerMgr.buf = []) :
    (remote_push msg st).1.peerMgr.activeSender = some a ∧
    (remote_push msg st).1.peerMgr.buf = [] ∧
    ∀ (i : Nat) (s : Slot) (pp : PeerPath),
      st.peerMgr.paths[i]? = some (s, pp) → pp.addr = a →
      ∃ pp2, (remote_push msg st).1.peerMgr.paths[i]? = some (s, pp2) ∧
        pp2.addr = pp.addr ∧ pp2.fil = pp.fil ∧ pp2.delivered = pp.delivered := by
  refine ⟨hAS, rfl, ?_⟩
  intro i s pp hip hpa
  obtain ⟨pp2, hip2, ha2, hf2, hd2⟩ := emitBatches_path st.peerMgr.activeSender
    (st.peerMgr.buf ++ [msg]) st.peerMgr.paths i s pp hip
  refine ⟨pp2, hip2, ha2, hf2, ?_⟩
  rw [hd2, hbuf, hAS, hpa]
  simp [peerAccepts_self]

theorem forwardTail_excluded (st1 : Transport) (evs : List Event)
    (c : NodeMessageContent) (ttl : Nat) (a : Addr)
    (hAS : st1.peerMgr.activeSender = some a) (hbuf : st1.peerMgr.buf = []) :
    let r :=
      if !st1.optForward then (st1, evs)
      else if srcEndsWith (topicOf c) cloneSuffix then (st1, evs)
      else if (ttl + 65535) % 65536 == 0 then (st1, evs ++ [Event.warnExpiredTTL])
      else ((push_node { content := c, ttl := (ttl + 65535) % 65536 } st1).1,
            evs ++ (push_node { content := c, ttl := (ttl + 65535) % 65536 } st1).2)
    r.1.peerMgr.activeSender = some a ∧ r.1.peerMgr.buf = [] ∧
    (∀ e ∈ r.2, e ∈ evs ∨ e = Event.warnExpiredTTL ∨
      ∃ m2, e = Event.peerPush m2 (some a)) ∧
    (∀ (i : Nat) (s : Slot) (pp : PeerPath),
      st1.peerMgr.paths[i]? = some (s, pp) → pp.addr = a →
      ∃ pp2, r.1.peerMgr.paths[i]? = some (s, pp2) ∧ pp2.addr = pp.addr ∧
        pp2.fil = pp.fil ∧ pp2.delivered = pp.delivered) := by
  cases hf2 : st1.optForward with
  | false =>
    simp only [hf2, Bool.not_false, if_true]
    exact ⟨hAS, hbuf, fun e he => Or.inl he,
           fun i s pp hip hpa => ⟨pp, hip, rfl, rfl, rfl⟩⟩
  | true =>
    simp only [hf2, Bool.not_true, Bool.false_eq_true, if_false]
    cases hcl : srcEndsWith (topicOf c) cloneSuffix with
    | true =>
      simp only [if_true]
      exact ⟨hAS, hbuf, fun e he => Or.inl he,
             fun i s pp hip hpa => ⟨pp, hip, rfl, rfl, rfl⟩⟩
    | false =>
      simp only [Bool.false_eq_true, if_false]
      cases ht : (ttl + 65535) % 65536 == 0 with
      | true =>
        simp only [if_true]
        refine ⟨hAS, hbuf, ?_, fun i s pp hip hpa => ⟨pp, hip, rfl, rfl, rfl⟩⟩
        intro e he
        rcases List.mem_append.mp he with h | h
        · exact Or.inl h
        · exact Or.inr (Or.inl (List.mem_singleton.mp h))
      | false =>
        simp only [Bool.false_eq_true, if_false]
        obtain ⟨hA2, hb2, hpaths⟩ := remote_push_excluded
          { content := c, ttl := (ttl + 65535) % 65536 } st1 a hAS hbuf
        refine ⟨hA2, hb2, ?_, hpaths⟩
        intro e he
        rcases List.mem_append.mp he with h | h
        · exact Or.inl h
        · right; right
          refine ⟨{ content := c, ttl := (ttl + 65535) % 65536 }, ?_⟩
          have h2 := List.mem_singleton.mp h
          rw [h2, hAS]

theorem processPeerMsg_excluded (numW numS : Nat) (st : Transport)
    (evs : List Event) (msg : NodeMessage) (a : Addr)
    (hAS : st.peerMgr.activeSender = some a) (hbuf : st.peerMgr.buf = []) :
    (processPeerMsg numW numS (st, evs) msg).1.peerMgr.activeSender = some a ∧
    (processPeerMsg numW numS (st, evs) msg).1.peerMgr.buf = [] ∧
    (∀ e ∈ (processPeerMsg numW numS (st, evs) msg).2,
      e ∈ evs ∨ e = Event.warnExpiredTTL ∨
        ∃ m2, e = Event.peerPush m2 (some a)) ∧
    (∀ (i : Nat) (s : Slot) (pp : PeerPath),
      st.peerMgr.paths[i]? = some (s, pp) → pp.addr = a →
      ∃ pp2, (processPeerMsg numW numS (st, evs) msg).1.peerMgr.paths[i]?
          = some (s, pp2) ∧ pp2.addr = pp.addr ∧
        pp2.fil = pp.fil ∧ pp2.delivered = pp.delivered) := by
  obtain ⟨c, ttl⟩ := msg
  cases c with
  | dataMsg dm =>
    by_cases hw : numW > 0
    · simp only [processPeerMsg, hw, if_true]
      exact forwardTail_excluded { st with workerMgr := st.workerMgr.push dm }
        evs (.dataMsg dm) ttl a hAS hbuf
    · simp only [processPeerMsg, hw, if_false]
      exact forwardTail_excluded st evs (.dataMsg dm) ttl a hAS hbuf
  | commandMsg cm =>
    by_cases hs : numS > 0
    · simp only [processPeerMsg, hs, if_true]
      exact forwardTail_excluded { st with storeMgr := st.storeMgr.push cm }
        evs (.commandMsg cm) ttl a hAS hbuf
    · simp only [processPeerMsg, hs, if_false]
      exact forwardTail_excluded st evs (.commandMsg cm) ttl a hAS hbuf

theorem peerLoop_excluded (numW numS : Nat) (a : Addr) :
    ∀ (msgs : List NodeMessage) (st : Transport) (evs : List Event),
      st.peerMgr.activeSender = some a → st.peerMgr.buf = [] →
      (msgs.foldl (processPeerMsg numW numS) (st, evs)).1.peerMgr.activeSender
          = some a ∧
      (msgs.foldl (processPeerMsg numW numS) (st, evs)).1.peerMgr.buf = [] ∧
      (∀ e ∈ (msgs.foldl (processPeerMsg numW numS) (st, evs)).2,
        e ∈ evs ∨ e = Event.warnExpiredTTL ∨
          ∃ m2, e = Event.peerPush m2 (some a)) ∧
      (∀ (i : Nat) (s : Slot) (pp : PeerPath),
        st.peerMgr.paths[i]? = some (s, pp) → pp.addr = a →
        ∃ pp2, (msgs.foldl (processPeerMsg numW numS) (st, evs)).1.peerMgr.paths[i]?
            = some (s, pp2) ∧ pp2.addr = pp.addr ∧
          pp2.fil = pp.fil ∧ pp2.delivered = pp.delivered) := by
  intro msgs
  induction msgs with
  | nil =>
    intro st evs hAS hbuf
    exact ⟨hAS, hbuf, fun e he => Or.inl he,
           fun i s pp hip hpa => ⟨pp, hip, rfl, rfl, rfl⟩⟩
  | cons m rest ih =>
    intro st evs hAS hbuf
    obtain ⟨h1, h2, h3, h4⟩ := processPeerMsg_excluded numW numS st evs m a hAS hbuf
    obtain ⟨g1, g2, g3, g4⟩ := ih (processPeerMsg numW numS (st, evs) m).1
      (processPeerMsg numW numS (st, evs) m).2 h1 h2
    refine ⟨g1, g2, ?_, ?_⟩
    · intro e he
      rcases g3 e he with h | h | h
      · exact h3 e h
      · exact Or.inr (Or.inl h)
      · exact Or.inr (Or.inr h)
    · intro i s pp hip hpa
      obtain ⟨pp1, hip1, ha1, hf1, hd1⟩ := h4 i s pp hip hpa
      obtain ⟨pp2, hip2, ha2, hf2, hd2⟩ := g4 i s pp1 hip1 (ha1.trans hpa)
      exact ⟨pp2, hip2, ha2.trans ha1, hf2.trans hf1, hd2.trans hd1⟩

/-- C1 (invariant I-FAN): during `handle_batch` of an inbound peer batch
from `p`, the pre-existing central buffer is flushed under the pre-existing
empty active sender, every push into the peer manager happens while the
active sender equals `p`, the guard flushes again before clearing the
sender, and consequently a path whose recorded sender-address equals `p`
receives exactly the pre-existing buffered messages matching its topic
filter and nothing forwarded from the batch. -/
theorem handle_batch_excludes_sender (p : Hdl) (msgs : List NodeMessage)
    (st : Transport) (hAS : st.peerMgr.activeSender = none) :
    FanOutExclusionProp p msgs st := by
  have hdf : ∀ pp : PeerPath, pp.addr = p →
      ({ pp with
         cache := pp.cache ++ st.peerMgr.buf.filter
           (peerAccepts st.peerMgr.activeSender pp.addr pp.fil) } : PeerPath).delivered
        = pp.delivered ++ st.peerMgr.buf.filter (peerAccepts none pp.addr pp.fil) := by
    intro pp _
    rw [hAS]
    simp [PeerPath.delivered, List.append_assoc]
  unfold FanOutExclusionProp handle_batch handleBatchBody
  cases hb : st.blocked_peers.contains p with
  | true =>
    simp only [hb, if_true]
    refine ⟨?_, ?_, ?_, ?_⟩
    · first | trivial | rfl
    · first | trivial | rfl
    · intro m2 as2 hmem
      exact absurd hmem (List.not_mem_nil _)
    · intro i s pp hip hpa
      have h1 := fanOutFlush_path st.peerMgr.activeSender st.peerMgr.buf
        st.peerMgr.paths i s pp hip
      obtain ⟨pp3, hip3, ha3, hf3, hd3⟩ := fanOutFlush_empty_path
        (PeerMgr.mk (some p) [] st.peerMgr.fanOutFlush.paths) rfl i s _ h1
      refine ⟨pp3, hip3, ?_, ?_, ?_⟩
      · exact ha3
      · exact hf3
      · exact hd3.trans (hdf pp hpa)
  | false =>
    simp only [hb, Bool.false_eq_true, if_false]
    obtain ⟨g1, g2, g3, g4⟩ := peerLoop_excluded st.workerMgr.paths.length
      st.storeMgr.paths.length p msgs
      { st with peerMgr := { st.peerMgr.fanOutFlush with activeSender := some p } }
      [] rfl rfl
    refine ⟨?_, ?_, ?_, ?_⟩
    · first | trivial | rfl
    · first | trivial | rfl
    · intro m2 as2 hmem
      have hd := g3 _ hmem
      rcases hd with h | h | ⟨m3, heq⟩
      · exact absurd h (List.not_mem_nil _)
      · exact absurd h (by simp)
      · exact (Event.peerPush.inj heq).2
    · intro i s pp hip hpa
      have h1 := fanOutFlush_path st.peerMgr.activeSender st.peerMgr.buf
        st.peerMgr.paths i s pp hip
      obtain ⟨pp2, hip2, ha2, hf2, hd2⟩ := g4 i s _ h1 hpa
      obtain ⟨pp3, hip3, ha3, hf3, hd3⟩ := fanOutFlush_empty_path _ g2 i s pp2 hip2
      refine ⟨pp3, hip3, ?_, ?_, ?_⟩
      · exact ha3.trans ha2
      · exact hf3.trans hf2
      · exact (hd3.trans hd2).trans (hdf pp hpa)

/-- Witness for C1 at a transport with a buffered message and a single
path whose recorded sender-address matches the inbound peer. -/
theorem handle_batch_excludes_sender_witness :
    stC1.peerMgr.activeSender = none ∧ FanOutExclusionProp 3 [exMsg5] stC1 :=
  ⟨rfl, handle_batch_excludes_sender 3 [exMsg5] stC1 rfl⟩

/-- Witness for C4 at a mixed three-message batch (a clone data message, a
plain data message and a clone command message) with a single worker path. -/
theorem clone_batch_local_only_witness :
    stC4.blocked_peers.contains 3 = false ∧
    ClonePeerBatchProp 3 [exCloneMsg, exMsg5, exCloneCmdMsg] stC4 :=
  ⟨rfl, clone_batch_local_only 3 [exCloneMsg, exMsg5, exCloneCmdMsg] stC4 rfl⟩

end Broker
